import Mathlib

/-!
Verification development for the `residency_match` repository.

The matcher (`src/matcher.rs`) is embedded shallowly: the mutually recursive
placement procedures become fuel-indexed total functions over an explicit
`MState`; Rust panics (failed `assert!`, `unwrap` of `None`, out-of-bounds
`swap_remove`) become the distinguished outcome `Res.crashed`, and the two
declared errors become `Res.err` carrying the state at the moment of the
error (Rust's `?` keeps mutations made so far, and `run_match` keeps
iterating after an error, so the state must travel with it).  `u8`/`u32`
values are modelled as `Nat`; the only subtraction the source performs is
`max(capacity - len, 0)` on `u8`, mirrored by truncated `Nat` subtraction.
Error context strings are elided; only the offending id is kept.

The preference generator (`src/ranker.rs`) and the first-choice statistics of
the reporter (`src/main.rs` / `src/driver.rs`) are embedded as well; the
`f32` competitiveness scalars of the generator are modelled as exact
rationals.
-/

/-- Applicant as the matcher sees it (`models/mod.rs`): process id, optional
partner id, and the rank list of program ids. -/
structure Applicant where
  id : Nat
  couple : Option Nat
  ranking : List Nat
deriving DecidableEq, Repr

/-- Program as the matcher sees it (`models/mod.rs`): id, capacity, rank list
of applicant ids. -/
structure Program where
  id : Nat
  capacity : Nat
  ranking : List Nat
deriving DecidableEq, Repr

/-- `MatchError` from `matcher.rs` (context strings elided). -/
inductive MatchError where
  | programNotFound : Nat → MatchError
  | applicantNotFound : Nat → MatchError
deriving DecidableEq, Repr

/-- The `Matcher` struct's mutable state: tentative rosters, unmatched
applicants and (after finalize) unmatched programs. -/
structure MState where
  «matches» : List (Program × List Applicant)
  unmatched_a : List Applicant
  unmatched_p : List Program
deriving DecidableEq, Repr

/-- Outcome of a matcher call: success, declared error (with the state at the
moment the error arose), a Rust panic, or exhausted fuel. -/
inductive Res where
  | ok : MState → Res
  | err : MatchError → MState → Res
  | crashed : Res
  | fuelOut : Res
deriving DecidableEq, Repr

/-- Sequencing of fallible matcher calls: Rust's `f()?; g()`. -/
def Res.bind (r : Res) (k : MState → Res) : Res :=
  match r with
  | .ok st => k st
  | e => e

/-- The state carried by a non-crashed outcome, if any. -/
def Res.state? : Res → Option MState
  | .ok st => some st
  | .err _ st => some st
  | _ => none

/-- `iter().position(...)` on a rank list. -/
def pos? (l : List Nat) (x : Nat) : Option Nat :=
  l.findIdx? (fun a => a == x)

/-- Rust `Vec::swap_remove`: remove index `i`, moving the last element into
its place; `none` models the out-of-bounds panic. -/
def swapRemove (l : List α) (i : Nat) : Option (α × List α) :=
  match l[i]?, l.getLast? with
  | some x, some z => some (x, (l.set i z).dropLast)
  | _, _ => none

/-- Rust `Iterator::max_by` on the second component (ties resolved to the
last element, as `max_by` specifies). -/
def maxBySnd (l : List (Nat × Nat)) : Option (Nat × Nat) :=
  match l with
  | [] => none
  | x :: xs => some (xs.foldl (fun acc y => if acc.2 ≤ y.2 then y else acc) x)

/-- Stable insertion for descending sort on the second component. -/
def insertDesc (x : Nat × Nat) : List (Nat × Nat) → List (Nat × Nat)
  | [] => [x]
  | y :: ys => if x.2 < y.2 then y :: insertDesc x ys else x :: y :: ys

/-- Rust's stable `sort_by(|a, b| b.1.cmp(&a.1))`: descending by second
component, stable. -/
def sortDesc : List (Nat × Nat) → List (Nat × Nat)
  | [] => []
  | x :: xs => insertDesc x (sortDesc xs)

/-- The `rank_map` computation: each tentatively matched roster member paired
with its position in the program's rank list; the first member missing from
the rank list yields `ApplicantNotFound`. -/
def rankMapFrom (pRanking : List Nat) (i : Nat) :
    List Applicant → Except MatchError (List (Nat × Nat))
  | [] => .ok []
  | x :: xs =>
    match pos? pRanking x.id with
    | none => .error (.applicantNotFound x.id)
    | some r =>
      match rankMapFrom pRanking (i + 1) xs with
      | .error e => .error e
      | .ok rest => .ok ((i, r) :: rest)

def rankMap (pRanking : List Nat) (roster : List Applicant) :
    Except MatchError (List (Nat × Nat)) :=
  rankMapFrom pRanking 0 roster

/-- `matches.iter().find(|m| m.0.id() == pid)`. -/
def findProg (ms : List (Program × List Applicant)) (pid : Nat) :
    Option (Program × List Applicant) :=
  ms.find? (fun m => m.1.id == pid)

/-- Replace the roster of the first entry whose program id is `pid` (the
entry `iter_mut().find` would have handed out). -/
def modifyFirstRoster : List (Program × List Applicant) → Nat → List Applicant →
    List (Program × List Applicant)
  | [], _, _ => []
  | m :: ms, pid, ros =>
    if m.1.id == pid then (m.1, ros) :: ms else m :: modifyFirstRoster ms pid ros

def setRoster (st : MState) (pid : Nat) (ros : List Applicant) : MState :=
  { st with «matches» := modifyFirstRoster st.«matches» pid ros }

/-- The `test_p` sanity assertion: some roster holds an applicant whose
partner field equals the proposing applicant's partner field; `none` models
the `unwrap` panic on an uncoupled applicant. -/
def testCouple (st : MState) (a : Applicant) : Option Bool :=
  match a.couple with
  | none => none
  | some ac => some (st.«matches».any (fun m => m.2.any (fun x => x.couple == some ac)))

mutual

/-- `Matcher::attempt_single_match` (matcher.rs:48). -/
def attemptSingleMatch : Nat → MState → Applicant → Res
  | 0, _, _ => .fuelOut
  | fuel + 1, st, a =>
    match a.couple with
    | some _ => .crashed
    | none => singleGo fuel st a a.ranking

/-- The rank-list loop of `attempt_single_match`. -/
def singleGo : Nat → MState → Applicant → List Nat → Res
  | 0, _, _, _ => .fuelOut
  | _ + 1, st, a, [] => .ok { st with unmatched_a := st.unmatched_a ++ [a] }
  | fuel + 1, st, a, pid :: rest =>
    match findProg st.«matches» pid with
    | none => .err (.programNotFound pid) st
    | some (P, roster) =>
      match pos? P.ranking a.id with
      | none => singleGo fuel st a rest
      | some aRank =>
        if P.capacity = 0 then singleGo fuel st a rest
        else if roster.length < P.capacity then
          let ros := roster ++ [a]
          if ros.length ≤ P.capacity then .ok (setRoster st pid ros) else .crashed
        else
          match rankMap P.ranking roster with
          | .error e => .err e st
          | .ok rm =>
            match maxBySnd rm with
            | none => .crashed
            | some (wIdx, wRank) =>
              if aRank < wRank then
                match swapRemove roster wIdx with
                | none => .crashed
                | some (w, ros1) =>
                  let ros2 := ros1 ++ [a]
                  if ros2.length ≤ P.capacity then
                    let st1 := setRoster st pid ros2
                    match w.couple with
                    | none => retryMatch fuel st1 w
                    | some c =>
                      match ros2.findIdx? (fun x => x.id == c) with
                      | some i =>
                        match swapRemove ros2 i with
                        | none => .crashed
                        | some (wc, ros3) =>
                          attemptCouplesMatch fuel (setRoster st1 pid ros3) w (some wc)
                      | none => retryMatch fuel st1 w
                  else .crashed
              else singleGo fuel st a rest

/-- `Matcher::attempt_couples_match` (matcher.rs:107). -/
def attemptCouplesMatch : Nat → MState → Applicant → Option Applicant → Res
  | 0, _, _, _ => .fuelOut
  | fuel + 1, st, a, none => attemptSingleMatch fuel st a
  | fuel + 1, st, a, some b =>
    if a.couple.isNone || b.couple.isNone then .crashed
    else couplesGo fuel st a b (a.ranking.zip b.ranking)

/-- The joint rank-list loop of `attempt_couples_match`. -/
def couplesGo : Nat → MState → Applicant → Applicant → List (Nat × Nat) → Res
  | 0, _, _, _, _ => .fuelOut
  | _ + 1, st, a, b, [] => .ok { st with unmatched_a := st.unmatched_a ++ [a, b] }
  | fuel + 1, st, a, b, (pid0, pid1) :: rest =>
    match findProg st.«matches» pid0 with
    | none => .err (.programNotFound pid0) st
    | some (P0, ros0) =>
      let same := pid0 == pid1
      match (if same then some (P0, ros0) else findProg st.«matches» pid1) with
      | none => .err (.programNotFound pid1) st
      | some (P1, ros1) =>
        match pos? P0.ranking a.id, pos? P1.ranking b.id with
        | some rank0, some rank1 =>
          if P0.capacity == 0 || P1.capacity == 0 || (same && P0.capacity == 1) then
            couplesGo fuel st a b rest
          else
            match rankMap P0.ranking ros0 with
            | .error e => .err e st
            | .ok r0m =>
              let r0sorted := sortDesc r0m
              if same then
                match max (P0.capacity - ros0.length) 0 with
                | 0 =>
                  match r0sorted with
                  | [] => .crashed
                  | (wi0, wr0) :: r0tail =>
                    if rank0 < wr0 && rank1 < wr0 then
                      match r0tail with
                      | [] => .crashed
                      | (wi1, wr1) :: _ =>
                        if rank0 < wr1 && rank1 < wr1 then
                          match swapRemove ros0 wi0 with
                          | none => .crashed
                          | some (w0, s1) =>
                            match swapRemove s1 (if wi0 < wi1 then wi1 - 1 else wi1) with
                            | none => .crashed
                            | some (w1, s2) =>
                              let s3 := s2 ++ [a, b]
                              if s3.length ≤ P0.capacity then
                                let st1 := setRoster st pid0 s3
                                match w0.couple with
                                | some c =>
                                  if w0.couple == some w1.id then
                                    attemptCouplesMatch fuel st1 w0 (some w1)
                                  else
                                    match s3.findIdx? (fun x => x.id == c) with
                                    | some i =>
                                      match swapRemove s3 i with
                                      | none => .crashed
                                      | some (extra, s4) =>
                                        Res.bind
                                          (attemptCouplesMatch fuel (setRoster st1 pid0 s4) w0 (some extra))
                                          (fun st2 => retryMatch fuel st2 w1)
                                    | none =>
                                      Res.bind (retryMatch fuel st1 w1)
                                        (fun st2 => retryMatch fuel st2 w0)
                                | none =>
                                  match w1.couple with
                                  | none =>
                                    Res.bind (retryMatch fuel st1 w1)
                                      (fun st2 => retryMatch fuel st2 w0)
                                  | some c =>
                                    match s3.findIdx? (fun x => x.id == c) with
                                    | some i =>
                                      match swapRemove s3 i with
                                      | none => .crashed
                                      | some (extra, s4) =>
                                        Res.bind (retryMatch fuel (setRoster st1 pid0 s4) w0)
                                          (fun st2 => attemptCouplesMatch fuel st2 w1 (some extra))
                                    | none =>
                                      Res.bind (retryMatch fuel st1 w1)
                                        (fun st2 => retryMatch fuel st2 w0)
                              else .crashed
                        else couplesGo fuel st a b rest
                    else couplesGo fuel st a b rest
                | 1 =>
                  match r0sorted with
                  | [] => .crashed
                  | (wi, wr) :: _ =>
                    if rank0 < wr && rank1 < wr then
                      match swapRemove ros0 wi with
                      | none => .crashed
                      | some (w, s1) =>
                        let s2 := s1 ++ [a, b]
                        if s2.length ≤ P0.capacity then
                          let st1 := setRoster st pid0 s2
                          match w.couple with
                          | none => retryMatch fuel st1 w
                          | some c =>
                            match s2.findIdx? (fun x => x.id == c) with
                            | some i =>
                              match swapRemove s2 i with
                              | none => .crashed
                              | some (wc, s3) =>
                                attemptCouplesMatch fuel (setRoster st1 pid0 s3) w (some wc)
                            | none => retryMatch fuel st1 w
                        else .crashed
                    else couplesGo fuel st a b rest
                | _ + 2 =>
                  if 2 ≤ P0.capacity - ros0.length then
                    let s1 := ros0 ++ [a, b]
                    if s1.length ≤ P0.capacity then
                      let st1 := setRoster st pid0 s1
                      match testCouple st1 a with
                      | some true => .ok st1
                      | _ => .crashed
                    else .crashed
                  else .crashed
              else
                if P0.id == P1.id then .crashed
                else if ros0.length < P0.capacity && ros1.length < P1.capacity then
                  let s0 := ros0 ++ [a]
                  if s0.length ≤ P0.capacity then
                    let st1 := setRoster st pid0 s0
                    match findProg st1.«matches» pid1 with
                    | none => .err (.programNotFound pid0) st1
                    | some (P1b, r1b) =>
                      let s1 := r1b ++ [b]
                      if s1.length ≤ P1b.capacity then
                        let st2 := setRoster st1 pid1 s1
                        match testCouple st2 a with
                        | some true => .ok st2
                        | _ => .crashed
                      else .crashed
                  else .crashed
                else
                  match rankMap P1.ranking ros1 with
                  | .error e => .err e st
                  | .ok r1m =>
                    match r0sorted with
                    | [] => .crashed
                    | (wi0, wr0) :: _ =>
                      match sortDesc r1m with
                      | [] => .crashed
                      | (wi1, wr1) :: _ =>
                        if rank0 < wr0 && rank1 < wr1 then
                          match swapRemove ros0 wi0 with
                          | none => .crashed
                          | some (w0, t0) =>
                            let t0b := t0 ++ [a]
                            if t0b.length ≤ P0.capacity then
                              let st1 := setRoster st pid0 t0b
                              match findProg st1.«matches» pid1 with
                              | none => .err (.programNotFound pid0) st1
                              | some (P1b, r1b) =>
                                match swapRemove r1b (if wi0 < wi1 then wi1 - 1 else wi1) with
                                | none => .crashed
                                | some (w1, t1) =>
                                  let t1b := t1 ++ [b]
                                  if t1b.length ≤ P1b.capacity then
                                    let st2 := setRoster st1 pid1 t1b
                                    match testCouple st2 a with
                                    | some true =>
                                      Res.bind (retryMatch fuel st2 w0)
                                        (fun st3 => retryMatch fuel st3 w1)
                                    | _ => .crashed
                                  else .crashed
                            else .crashed
                        else couplesGo fuel st a b rest
        | _, _ => couplesGo fuel st a b rest

/-- `Matcher::retry_match` (matcher.rs:343). -/
def retryMatch : Nat → MState → Applicant → Res
  | 0, _, _ => .fuelOut
  | fuel + 1, st, w =>
    match w.couple with
    | none => attemptSingleMatch fuel st w
    | some c =>
      match st.«matches».findIdx? (fun m => m.2.any (fun x => x.couple == some c)) with
      | none => .crashed
      | some j =>
        match st.«matches»[j]? with
        | none => .crashed
        | some (P, ros) =>
          match ros.findIdx? (fun x => x.couple == some c) with
          | none => .err (.applicantNotFound c) st
          | some i =>
            match swapRemove ros i with
            | none => .crashed
            | some (partner, ros1) =>
              attemptCouplesMatch fuel
                { st with «matches» := st.«matches».set j (P, ros1) } w (some partner)

end

/-- `Matcher::finalize` (matcher.rs:372). -/
def finalize (st : MState) : MState :=
  { «matches» := st.«matches».filter (fun m => 0 < m.2.length),
    unmatched_a := st.unmatched_a,
    unmatched_p := (st.«matches».filter (fun m => m.2.length = 0)).map (fun m => m.1) }

/-- The applicant loop of `run_match`: every unit is processed even after an
error (`collect::<Vec<_>>` before the `Result` collect), and the first error
is the one returned. -/
def runGo (fuel : Nat) : MState → List (Applicant × Option Applicant) →
    Option MatchError → Res
  | st, [], none => .ok (finalize st)
  | st, [], some e => .err e st
  | st, (a, b) :: rest, firstErr =>
    match attemptCouplesMatch fuel st a b with
    | .ok st1 => runGo fuel st1 rest firstErr
    | .err e st1 => runGo fuel st1 rest (firstErr.getD e |> some)
    | r => r

/-- `Matcher::run_match` (matcher.rs:360): fresh state, one
`attempt_couples_match` per input unit, then finalize. -/
def runMatch (fuel : Nat) (applicants : List (Applicant × Option Applicant))
    (programs : List Program) : Res :=
  runGo fuel
    { «matches» := programs.map (fun p => (p, [])), unmatched_a := [], unmatched_p := [] }
    applicants none

/-! ## Reporter (`run_simulation`, main.rs:212 / driver.rs:169) -/

/-- The applicants counted as "matched their first choice" by the reporter:
all roster members of every program in which some member's first-listed
choice is that program.  (Rust indexes `a.ranking[0]`, which panics on an
empty rank list; the embedding uses the total lookup `ranking[0]?`, which
agrees whenever the members actually ranked programs.) -/
def firstChoicers (ms : List (Program × List Applicant)) : List Applicant :=
  (ms.filter (fun m => m.2.any (fun x => x.ranking[0]? == some m.1.id))).flatMap
    (fun m => m.2)

def allFirstChoiceCount (ms : List (Program × List Applicant)) : Nat :=
  (firstChoicers ms).length

/-- Modelled from the spec: "count of applicants who obtained their
first-listed choice (defined as: the applicant's rank_list[0] equals the id
of the program it was placed in)". -/
def specFirstChoiceCount (ms : List (Program × List Applicant)) : Nat :=
  (ms.map (fun m => (m.2.filter (fun x => x.ranking[0]? == some m.1.id)).length)).sum

/-! ## Preference generator (`rank`, ranker.rs:46), `f32` modelled as `ℚ` -/

structure RankStrategy where
  reach_multiplier : ℚ
  realistic_multiplier : ℚ
  safety_multiplier : ℚ

structure RankDistribution where
  reach : ℚ
  realistic : ℚ
  safety : ℚ

/-- A program as the generator sees it. -/
structure GProgram where
  id : Nat
  competitiveness : ℚ
deriving DecidableEq, Repr

/-- An applicant as the generator sees it. -/
structure GApplicant where
  applications : Nat
  competitiveness : ℚ

/-- `(applications as f32 * share) as usize`. -/
def takeCount (n : Nat) (q : ℚ) : Nat := (⌊(n : ℚ) * q⌋).toNat

/-- The reach bucket filter and take of `rank` (ranker.rs:51). -/
def reachBucket (a : GApplicant) (programs : List GProgram) (s : RankStrategy)
    (d : RankDistribution) : List GProgram :=
  (programs.filter (fun p =>
      min (99 / 100 : ℚ) (s.reach_multiplier * a.competitiveness) ≤ p.competitiveness)).take
    (takeCount a.applications d.reach)

/-- The realistic bucket filter and take of `rank` (ranker.rs:58). -/
def realisticBucket (a : GApplicant) (programs : List GProgram) (s : RankStrategy)
    (d : RankDistribution) : List GProgram :=
  (programs.filter (fun p =>
      p.competitiveness < s.reach_multiplier * a.competitiveness ∧
        min (99 / 100 : ℚ) (s.realistic_multiplier * a.competitiveness) ≤
          p.competitiveness)).take
    (takeCount a.applications d.realistic)

/-- The safety bucket filter and take of `rank` (ranker.rs:66). -/
def safetyBucket (a : GApplicant) (programs : List GProgram) (s : RankStrategy)
    (d : RankDistribution) : List GProgram :=
  (programs.filter (fun p =>
      p.competitiveness < s.realistic_multiplier * a.competitiveness ∧
        min (95 / 100 : ℚ) (s.safety_multiplier * a.competitiveness) ≤
          p.competitiveness)).take
    (takeCount a.applications d.safety)

/-- `let all = [reach, realistic, safety].concat()` mapped to ids. -/
def rankIds (a : GApplicant) (programs : List GProgram) (s : RankStrategy)
    (d : RankDistribution) : List Nat :=
  (reachBucket a programs s d ++ realisticBucket a programs s d ++
    safetyBucket a programs s d).map (fun p => p.id)

/-! ## Concrete scenarios -/

/-- Couple (A0,A1) placed at distinct programs, then a preferred single
displaces A0 from P0 (A4 scenario of the retry dispatch). -/
def c4A0 : Applicant := ⟨10, some 11, [0]⟩
def c4A1 : Applicant := ⟨11, some 10, [1]⟩
def c4A2 : Applicant := ⟨12, none, [0]⟩
def c4P0 : Program := ⟨0, 1, [12, 10]⟩
def c4P1 : Program := ⟨1, 1, [11]⟩

/-- Intermediate state for the distinct-programs displacement branch:
P0 (capacity 1) holds x; P1 (capacity 2) holds y0 (rank 1) and y1 (rank 2,
the weakest). -/
def c5x : Applicant := ⟨2, none, []⟩
def c5y0 : Applicant := ⟨3, none, []⟩
def c5y1 : Applicant := ⟨4, none, []⟩
def c5a : Applicant := ⟨10, some 11, [0]⟩
def c5b : Applicant := ⟨11, some 10, [1]⟩
def c5P0 : Program := ⟨0, 1, [10, 2]⟩
def c5P1 : Program := ⟨1, 2, [11, 3, 4]⟩
def c5st : MState := ⟨[(c5P0, [c5x]), (c5P1, [c5y0, c5y1])], [], []⟩

/-- A single fills P1, then a couple proposes to (P0, P1) with P0 empty:
the distinct-programs branch unwraps the first element of P0's empty
rank map. -/
def c6s1 : Applicant := ⟨5, none, [1]⟩
def c6a : Applicant := ⟨6, some 7, [0]⟩
def c6b : Applicant := ⟨7, some 6, [1]⟩
def c6P0 : Program := ⟨0, 1, [6]⟩
def c6P1 : Program := ⟨1, 1, [5, 7]⟩

/-- Spec scenario 6: couples (A0,A1) and (A2,A3), both with joint list
[(P0,P1)]; processed (A2,A3) first. -/
def c7A0 : Applicant := ⟨20, some 21, [0]⟩
def c7A1 : Applicant := ⟨21, some 20, [1]⟩
def c7A2 : Applicant := ⟨22, some 23, [0]⟩
def c7A3 : Applicant := ⟨23, some 22, [1]⟩
def c7P0 : Program := ⟨0, 1, [20, 22]⟩
def c7P1 : Program := ⟨1, 1, [21, 23]⟩

/-- P0 (capacity 2) ends with A0 (first choice P0) and A1 (first choice P1,
second choice P0). -/
def c9A0 : Applicant := ⟨30, none, [0]⟩
def c9A1 : Applicant := ⟨31, none, [1, 0]⟩
def c9P0 : Program := ⟨0, 2, [30, 31]⟩
def c9P1 : Program := ⟨1, 1, []⟩
def c9final : MState := ⟨[(c9P0, [c9A0, c9A1])], [], [c9P1]⟩

/-- C4: the couple-aware retry dispatch the claim describes never runs: when
the displaced applicant A0 has its partner A1 placed in a different roster,
`retry_match` searches all rosters for an applicant whose partner field
equals `A0.couple` (the partner's id, 11) instead of A0's own id, finds
nothing — `A1.couple` is `some 10` — and the following assertion panics
instead of retrying A0 as a couple or falling back to single placement. -/
theorem retry_dispatch_crashes :
    runMatch 50 [(c4A0, some c4A1), (c4A2, none)] [c4P0, c4P1] = .crashed := by decide

/-- C5: in the distinct-programs displacement branch the applicants evicted
are not the weakest members: P1's weakest member is y1 (rank 2), but the
cross-vector index adjustment `r1_worst_index - 1` evicts y0 (rank 1); the
run succeeds with y0 displaced into the unmatched pool and y1 retained. -/
theorem weakest_eviction_wrong :
    attemptCouplesMatch 50 c5st c5a (some c5b) =
      .ok ⟨[(c5P0, [c5a]), (c5P1, [c5y1, c5b])], [c5x, c5y0], []⟩ ∧
    pos? c5P1.ranking c5y0.id = some 1 ∧ pos? c5P1.ranking c5y1.id = some 2 := by decide

/-- C6: `run_match` can panic (here: the distinct-programs displacement
branch unwraps the head of the empty rank map of a non-full program), so the
outcome is neither `Ok` nor one of the two declared errors. -/
theorem run_match_crashes :
    runMatch 50 [(c6s1, none), (c6a, some c6b)] [c6P0, c6P1] = .crashed := by decide

/-- C7: the spec's "couple distinct-program with partner-of-evictee"
scenario: instead of placing (A0,A1) at (P0,P1) and leaving (A2,A3)
unmatched, the run panics in `retry_match` when re-dispatching the displaced
A2 (the roster search for `couple == Some(23)` finds no one). -/
theorem couple_scenario_crashes :
    runMatch 50 [(c7A2, some c7A3), (c7A0, some c7A1)] [c7P0, c7P1] = .crashed := by decide

/-- C9: the reporter counts every roster member of a program in which some
member got its first choice: here A1 matched its second choice, yet the
reported count is 2 while exactly one applicant (A0) obtained its
first-listed choice. -/
theorem first_choice_overcount :
    runMatch 50 [(c9A0, none), (c9A1, none)] [c9P0, c9P1] = .ok c9final ∧
    allFirstChoiceCount c9final.«matches» = 2 ∧
    specFirstChoiceCount c9final.«matches» = 1 := by decide

/-! ## Generator bucket overlap (C10) -/

def c10a : GApplicant := ⟨1, 1⟩
def c10s : RankStrategy := ⟨23 / 20, 19 / 20, 7 / 10⟩
def c10d : RankDistribution := ⟨1, 1, 1⟩
def c10p : GProgram := ⟨0, 199 / 200⟩

/-- C10 counterexample: with `reach_multiplier * competitiveness = 1.15`
capped at 0.99 in the reach filter only, the program with competitiveness
0.995 passes both the reach filter (0.995 ≥ 0.99) and the realistic filter
(0.995 < 1.15 and 0.995 ≥ 0.95), so it is selected into both buckets and its
id appears twice in the concatenated rank list. -/
theorem reach_realistic_overlap :
    c10p ∈ reachBucket c10a [c10p] c10s c10d ∧
    c10p ∈ realisticBucket c10a [c10p] c10s c10d ∧
    ¬ (rankIds c10a [c10p] c10s c10d).Nodup := by
  have hr : reachBucket c10a [c10p] c10s c10d = [c10p] := by
    simp [reachBucket, takeCount, c10a, c10s, c10d, c10p, List.filter]; norm_num
  have hm : realisticBucket c10a [c10p] c10s c10d = [c10p] := by
    simp [realisticBucket, takeCount, c10a, c10s, c10d, c10p, List.filter]; norm_num
  have hs : safetyBucket c10a [c10p] c10s c10d = [] := by
    simp [safetyBucket, takeCount, c10a, c10s, c10d, c10p, List.filter]; norm_num
  refine ⟨by simp [hr], by simp [hm], ?_⟩
  simp only [rankIds, hr, hm, hs]
  simp [c10p]

/-- C10 amended: whenever the reach threshold is not capped (that is,
`reach_multiplier * competitiveness ≤ 0.99`), every program in the reach
bucket has competitiveness at least `reach_multiplier * competitiveness`,
which the realistic filter excludes, so the two buckets are disjoint. -/
theorem reach_realistic_disjoint
    (a : GApplicant) (programs : List GProgram) (s : RankStrategy)
    (d : RankDistribution)
    (h : s.reach_multiplier * a.competitiveness ≤ 99 / 100) :
    ∀ p, p ∈ reachBucket a programs s d → p ∉ realisticBucket a programs s d := by
  intro p hr hm
  have h1 : min (99 / 100 : ℚ) (s.reach_multiplier * a.competitiveness) ≤
      p.competitiveness := by
    have := List.mem_filter.1 (List.mem_of_mem_take hr)
    simpa using this.2
  have h2 : p.competitiveness < s.reach_multiplier * a.competitiveness := by
    have := List.mem_filter.1 (List.mem_of_mem_take hm)
    have := of_decide_eq_true this.2
    exact this.1
  rw [min_eq_right h] at h1
  exact absurd h2 (not_lt.2 h1)

/-- Witness for the amended C10 theorem at a concrete input. -/
theorem reach_realistic_disjoint_witness :
    c10p ∉ realisticBucket ⟨1, 1 / 2⟩ [c10p] c10s c10d := by
  have hmem : c10p ∈ reachBucket ⟨1, 1 / 2⟩ [c10p] c10s c10d := by
    simp [reachBucket, takeCount, c10s, c10d, c10p, List.filter]; norm_num
  exact reach_realistic_disjoint ⟨1, 1 / 2⟩ [c10p] c10s c10d (by norm_num [c10s])
    c10p hmem

/-! ## Multiset bookkeeping for rosters -/

/-- The multiset of applicants held across all tentative rosters. -/
def rosterMems : List (Program × List Applicant) → Multiset Applicant
  | [] => 0
  | m :: ms => (m.2 : Multiset Applicant) + rosterMems ms

/-- The multiset of all applicants the matcher currently holds (rosters plus
unmatched pool). -/
def footprint (st : MState) : Multiset Applicant :=
  rosterMems st.«matches» + (st.unmatched_a : Multiset Applicant)

theorem swapRemove_perm {α : Type} {l l2 : List α} {i : Nat} {x : α}
    (h : swapRemove l i = some (x, l2)) : l.Perm (x :: l2) := by
  unfold swapRemove at h
  rcases hx : l[i]? with _ | x0 <;> rw [hx] at h <;>
    rcases hz : l.getLast? with _ | z <;> rw [hz] at h <;> simp at h
  obtain ⟨rfl, rfl⟩ := h
  obtain ⟨hi, hxe⟩ := List.getElem?_eq_some.1 hx
  have hset : l.set i z = l.take i ++ z :: l.drop (i + 1) :=
    List.set_eq_take_cons_drop z hi
  have hl : l = l.take i ++ x0 :: l.drop (i + 1) := by
    conv_lhs => rw [← List.take_append_drop i l, List.drop_eq_getElem_cons hi, hxe]
  have hlast : (l.set i z).getLast? = some z := by
    rw [hset, List.getLast?_append_cons]
    rcases hd : l.drop (i + 1) with _ | ⟨d, ds⟩
    · rfl
    · rw [List.getLast?_cons_cons]
      rw [hl, hd, List.getLast?_append_cons, List.getLast?_cons_cons] at hz
      exact hz
  have hdl : (l.set i z).dropLast ++ [z] = l.set i z :=
    List.dropLast_append_getLast? z hlast
  have p1 : List.Perm ((l.set i z).dropLast ++ [z]) (z :: (l.take i ++ l.drop (i + 1))) := by
    rw [hdl, hset]; exact List.perm_middle
  have p2 : List.Perm ((l.set i z).dropLast ++ [z]) (z :: (l.set i z).dropLast) :=
    List.perm_append_singleton z _
  have pl2 : List.Perm ((l.set i z).dropLast) (l.take i ++ l.drop (i + 1)) :=
    (p2.symm.trans p1).cons_inv
  have hres := List.perm_middle.trans (pl2.symm.cons x0)
  rwa [← hl] at hres

theorem swapRemove_multiset {α : Type} {l l2 : List α} {i : Nat} {x : α}
    (h : swapRemove l i = some (x, l2)) :
    (l : Multiset α) = x ::ₘ (l2 : Multiset α) := by
  rw [Multiset.cons_coe, Multiset.coe_eq_coe]
  exact swapRemove_perm h

theorem swapRemove_length {α : Type} {l l2 : List α} {i : Nat} {x : α}
    (h : swapRemove l i = some (x, l2)) : l.length = l2.length + 1 :=
  (swapRemove_perm h).length_eq

theorem swapRemove_mem {α : Type} {l l2 : List α} {i : Nat} {x y : α}
    (h : swapRemove l i = some (x, l2)) (hy : y ∈ l2) : y ∈ l :=
  (swapRemove_perm h).mem_iff.2 (List.mem_cons_of_mem x hy)

theorem swapRemove_mem_self {α : Type} {l l2 : List α} {i : Nat} {x : α}
    (h : swapRemove l i = some (x, l2)) : x ∈ l :=
  (swapRemove_perm h).mem_iff.2 (List.mem_cons_self x l2)

theorem findProg_cons (m : Program × List Applicant)
    (ms : List (Program × List Applicant)) (pid : Nat) :
    findProg (m :: ms) pid = if m.1.id == pid then some m else findProg ms pid := by
  by_cases hm : (m.1.id == pid) = true
  · simp [findProg, List.find?_cons_of_pos _ hm, hm]
  · simp only [Bool.not_eq_true] at hm
    simp [findProg, List.find?_cons_of_neg, hm]

/-- `modifyFirstRoster` rewrites exactly the roster `findProg` sees. -/
theorem modifyFirstRoster_rosterMems {ms : List (Program × List Applicant)}
    {pid : Nat} {P : Program} {ros : List Applicant} (ros2 : List Applicant)
    (h : findProg ms pid = some (P, ros)) :
    rosterMems (modifyFirstRoster ms pid ros2) + (ros : Multiset Applicant) =
      rosterMems ms + (ros2 : Multiset Applicant) := by
  induction ms with
  | nil => simp [findProg] at h
  | cons m ms ih =>
    rw [findProg_cons] at h
    by_cases hm : (m.1.id == pid) = true
    · rw [hm, if_pos rfl, Option.some_inj] at h
      subst h
      simp only [modifyFirstRoster, hm, if_true, rosterMems]
      abel
    · rw [if_neg (by simp [hm])] at h
      simp only [modifyFirstRoster, hm, if_false, Bool.false_eq_true, rosterMems]
      rw [add_assoc, ih h, add_assoc]

theorem modifyFirstRoster_findProg_same {ms : List (Program × List Applicant)}
    {pid : Nat} {P : Program} {ros : List Applicant} (ros2 : List Applicant)
    (h : findProg ms pid = some (P, ros)) :
    findProg (modifyFirstRoster ms pid ros2) pid = some (P, ros2) := by
  induction ms with
  | nil => simp [findProg] at h
  | cons m ms ih =>
    rw [findProg_cons] at h
    by_cases hm : (m.1.id == pid) = true
    · rw [hm, if_pos rfl, Option.some_inj] at h
      subst h
      simp [modifyFirstRoster, hm, findProg_cons]
    · rw [if_neg (by simp [hm])] at h
      simp only [modifyFirstRoster, hm, if_false, Bool.false_eq_true]
      rw [findProg_cons, if_neg (by simp [hm])]
      exact ih h

theorem modifyFirstRoster_findProg_other {ms : List (Program × List Applicant)}
    {pid pid2 : Nat} (ros2 : List Applicant) (hne : pid != pid2) :
    findProg (modifyFirstRoster ms pid ros2) pid2 = findProg ms pid2 := by
  induction ms with
  | nil => simp [modifyFirstRoster, findProg]
  | cons m ms ih =>
    by_cases hm : (m.1.id == pid) = true
    · have hm2 : (m.1.id == pid2) = false := by
        have h1 : m.1.id = pid := by simpa using hm
        have h2 : pid ≠ pid2 := by simpa using hne
        simp [h1, h2]
      simp [modifyFirstRoster, hm, findProg_cons, hm2]
    · simp only [modifyFirstRoster, hm, if_false, Bool.false_eq_true]
      rw [findProg_cons, findProg_cons]
      by_cases hm2 : (m.1.id == pid2) = true
      · simp [hm2]
      · simp only [hm2, if_false, Bool.false_eq_true]
        exact ih

theorem set_rosterMems {ms : List (Program × List Applicant)} {j : Nat}
    {P : Program} {ros : List Applicant} (ros2 : List Applicant)
    (h : ms[j]? = some (P, ros)) :
    rosterMems (ms.set j (P, ros2)) + (ros : Multiset Applicant) =
      rosterMems ms + (ros2 : Multiset Applicant) := by
  induction ms generalizing j with
  | nil => simp at h
  | cons m ms ih =>
    cases j with
    | zero =>
      simp only [List.getElem?_cons_zero, Option.some_inj] at h
      subst h
      simp only [List.set_cons_zero, rosterMems]
      abel
    | succ j =>
      simp only [List.getElem?_cons_succ] at h
      simp only [List.set_cons_succ, rosterMems]
      rw [add_assoc, ih h, add_assoc]

theorem coe_append_m (l l2 : List Applicant) :
    ((l ++ l2 : List Applicant) : Multiset Applicant) =
      (l : Multiset Applicant) + (l2 : Multiset Applicant) :=
  (Multiset.coe_add l l2).symm

theorem footprint_unmatched_one (st : MState) (a : Applicant) :
    footprint { st with unmatched_a := st.unmatched_a ++ [a] } =
      footprint st + {a} := by
  simp only [footprint, coe_append_m, Multiset.coe_singleton]
  abel

theorem footprint_unmatched_two (st : MState) (a b : Applicant) :
    footprint { st with unmatched_a := st.unmatched_a ++ [a, b] } =
      footprint st + {a} + {b} := by
  have h2 : st.unmatched_a ++ [a, b] = (st.unmatched_a ++ [a]) ++ [b] := by simp
  simp only [footprint, h2, coe_append_m, Multiset.coe_singleton]
  abel

theorem footprint_update {st : MState} {pid : Nat} {P : Program}
    {ros : List Applicant} (ros2 : List Applicant)
    (h : findProg st.«matches» pid = some (P, ros)) :
    footprint (setRoster st pid ros2) + (ros : Multiset Applicant) =
      footprint st + (ros2 : Multiset Applicant) := by
  simp only [footprint, setRoster]
  have := modifyFirstRoster_rosterMems ros2 h
  calc rosterMems (modifyFirstRoster st.«matches» pid ros2) +
        (st.unmatched_a : Multiset Applicant) + (ros : Multiset Applicant)
      = rosterMems (modifyFirstRoster st.«matches» pid ros2) +
        (ros : Multiset Applicant) + (st.unmatched_a : Multiset Applicant) := by abel
    _ = rosterMems st.«matches» + (ros2 : Multiset Applicant) +
        (st.unmatched_a : Multiset Applicant) := by rw [this]
    _ = rosterMems st.«matches» + (st.unmatched_a : Multiset Applicant) +
        (ros2 : Multiset Applicant) := by abel

theorem footprint_setIdx {st : MState} {j : Nat} {P : Program}
    {ros : List Applicant} (ros2 : List Applicant)
    (h : st.«matches»[j]? = some (P, ros)) :
    footprint { st with «matches» := st.«matches».set j (P, ros2) } +
        (ros : Multiset Applicant) =
      footprint st + (ros2 : Multiset Applicant) := by
  simp only [footprint]
  have := set_rosterMems (P := P) ros2 h
  calc rosterMems (st.«matches».set j (P, ros2)) +
        (st.unmatched_a : Multiset Applicant) + (ros : Multiset Applicant)
      = rosterMems (st.«matches».set j (P, ros2)) + (ros : Multiset Applicant) +
        (st.unmatched_a : Multiset Applicant) := by abel
    _ = rosterMems st.«matches» + (ros2 : Multiset Applicant) +
        (st.unmatched_a : Multiset Applicant) := by rw [this]
    _ = rosterMems st.«matches» + (st.unmatched_a : Multiset Applicant) +
        (ros2 : Multiset Applicant) := by abel

theorem bind_eq_ok {r : Res} {k : MState → Res} {st2 : MState} :
    Res.bind r k = .ok st2 ↔ ∃ stm, r = .ok stm ∧ k stm = .ok st2 := by
  cases r <;> simp [Res.bind]

theorem bind_state? {r : Res} {k : MState → Res} {st2 : MState}
    (h : (Res.bind r k).state? = some st2) :
    (∃ stm, r = .ok stm ∧ (k stm).state? = some st2) ∨ ∃ e, r = .err e st2 := by
  cases r with
  | ok stm => exact .inl ⟨stm, rfl, h⟩
  | err e stm =>
    simp [Res.bind, Res.state?] at h
    subst h
    exact .inr ⟨e, rfl⟩
  | crashed => simp [Res.bind, Res.state?] at h
  | fuelOut => simp [Res.bind, Res.state?] at h

theorem fp_push {st : MState} {pid : Nat} {P : Program} {ros : List Applicant}
    (a : Applicant) (h : findProg st.«matches» pid = some (P, ros)) :
    footprint (setRoster st pid (ros ++ [a])) = footprint st + {a} := by
  have h2 := footprint_update (ros ++ [a]) h
  rw [coe_append_m, Multiset.coe_singleton] at h2
  have h3 : footprint (setRoster st pid (ros ++ [a])) + (ros : Multiset Applicant) =
      (footprint st + {a}) + (ros : Multiset Applicant) := by rw [h2]; abel
  exact add_right_cancel h3

theorem fp_push2 {st : MState} {pid : Nat} {P : Program} {ros : List Applicant}
    (a b : Applicant) (h : findProg st.«matches» pid = some (P, ros)) :
    footprint (setRoster st pid (ros ++ [a, b])) = footprint st + {a} + {b} := by
  have h2 := footprint_update (ros ++ [a, b]) h
  have hab : ((ros ++ [a, b] : List Applicant) : Multiset Applicant) =
      (ros : Multiset Applicant) + {a} + {b} := by
    rw [show ros ++ [a, b] = (ros ++ [a]) ++ [b] by simp, coe_append_m, coe_append_m]
    simp [add_assoc]
  rw [hab] at h2
  have h3 : footprint (setRoster st pid (ros ++ [a, b])) + (ros : Multiset Applicant) =
      (footprint st + {a} + {b}) + (ros : Multiset Applicant) := by rw [h2]; abel
  exact add_right_cancel h3

theorem fp_swap_push {st : MState} {pid : Nat} {P : Program}
    {ros ros1 : List Applicant} {i : Nat} {w : Applicant} (a : Applicant)
    (h : findProg st.«matches» pid = some (P, ros))
    (hsw : swapRemove ros i = some (w, ros1)) :
    footprint (setRoster st pid (ros1 ++ [a])) + {w} = footprint st + {a} := by
  have h2 := footprint_update (ros1 ++ [a]) h
  rw [swapRemove_multiset hsw, coe_append_m, Multiset.coe_singleton] at h2
  have h3 : footprint (setRoster st pid (ros1 ++ [a])) + {w} + (ros1 : Multiset Applicant) =
      (footprint st + {a}) + (ros1 : Multiset Applicant) := by
    rw [show footprint (setRoster st pid (ros1 ++ [a])) + {w} + (ros1 : Multiset Applicant) =
      footprint (setRoster st pid (ros1 ++ [a])) + (w ::ₘ (ros1 : Multiset Applicant)) by
        rw [← Multiset.singleton_add]; abel]
    rw [h2]
    abel
  exact add_right_cancel h3

theorem fp_swap_push2 {st : MState} {pid : Nat} {P : Program}
    {ros ros1 : List Applicant} {i : Nat} {w : Applicant} (a b : Applicant)
    (h : findProg st.«matches» pid = some (P, ros))
    (hsw : swapRemove ros i = some (w, ros1)) :
    footprint (setRoster st pid (ros1 ++ [a, b])) + {w} = footprint st + {a} + {b} := by
  have h2 := footprint_update (ros1 ++ [a, b]) h
  have hab : ((ros1 ++ [a, b] : List Applicant) : Multiset Applicant) =
      (ros1 : Multiset Applicant) + {a} + {b} := by
    rw [show ros1 ++ [a, b] = (ros1 ++ [a]) ++ [b] by simp, coe_append_m, coe_append_m]
    simp [add_assoc]
  rw [swapRemove_multiset hsw, hab] at h2
  have h3 : footprint (setRoster st pid (ros1 ++ [a, b])) + {w} + (ros1 : Multiset Applicant) =
      (footprint st + {a} + {b}) + (ros1 : Multiset Applicant) := by
    rw [show footprint (setRoster st pid (ros1 ++ [a, b])) + {w} + (ros1 : Multiset Applicant) =
      footprint (setRoster st pid (ros1 ++ [a, b])) + (w ::ₘ (ros1 : Multiset Applicant)) by
        rw [← Multiset.singleton_add]; abel]
    rw [h2]
    abel
  exact add_right_cancel h3

theorem fp_swap2_push2 {st : MState} {pid : Nat} {P : Program}
    {ros s1 s2 : List Applicant} {i j : Nat} {w0 w1 : Applicant} (a b : Applicant)
    (h : findProg st.«matches» pid = some (P, ros))
    (hsw0 : swapRemove ros i = some (w0, s1))
    (hsw1 : swapRemove s1 j = some (w1, s2)) :
    footprint (setRoster st pid (s2 ++ [a, b])) + {w0} + {w1} =
      footprint st + {a} + {b} := by
  have h2 := footprint_update (s2 ++ [a, b]) h
  have hab : ((s2 ++ [a, b] : List Applicant) : Multiset Applicant) =
      (s2 : Multiset Applicant) + {a} + {b} := by
    rw [show s2 ++ [a, b] = (s2 ++ [a]) ++ [b] by simp, coe_append_m, coe_append_m]
    simp [add_assoc]
  rw [swapRemove_multiset hsw0, swapRemove_multiset hsw1, hab] at h2
  have h3 : footprint (setRoster st pid (s2 ++ [a, b])) + {w0} + {w1} +
      (s2 : Multiset Applicant) =
      (footprint st + {a} + {b}) + (s2 : Multiset Applicant) := by
    rw [show footprint (setRoster st pid (s2 ++ [a, b])) + {w0} + {w1} +
        (s2 : Multiset Applicant) =
      footprint (setRoster st pid (s2 ++ [a, b])) +
        (w0 ::ₘ w1 ::ₘ (s2 : Multiset Applicant)) by
        rw [← Multiset.singleton_add, ← Multiset.singleton_add]; abel]
    rw [h2]
    abel
  exact add_right_cancel h3

theorem fp_pull {st : MState} {pid : Nat} {P : Program}
    {ros ros1 : List Applicant} {i : Nat} {w : Applicant}
    (h : findProg st.«matches» pid = some (P, ros))
    (hsw : swapRemove ros i = some (w, ros1)) :
    footprint (setRoster st pid ros1) + {w} = footprint st := by
  have h2 := footprint_update ros1 h
  rw [swapRemove_multiset hsw] at h2
  have h3 : footprint (setRoster st pid ros1) + {w} + (ros1 : Multiset Applicant) =
      footprint st + (ros1 : Multiset Applicant) := by
    rw [show footprint (setRoster st pid ros1) + {w} + (ros1 : Multiset Applicant) =
      footprint (setRoster st pid ros1) + (w ::ₘ (ros1 : Multiset Applicant)) by
        rw [← Multiset.singleton_add]; abel]
    rw [h2]
  exact add_right_cancel h3

theorem fp_pull_idx {st : MState} {j : Nat} {P : Program}
    {ros ros1 : List Applicant} {i : Nat} {w : Applicant}
    (h : st.«matches»[j]? = some (P, ros))
    (hsw : swapRemove ros i = some (w, ros1)) :
    footprint { st with «matches» := st.«matches».set j (P, ros1) } + {w} =
      footprint st := by
  have h2 := footprint_setIdx ros1 h
  rw [swapRemove_multiset hsw] at h2
  have h3 : footprint { st with «matches» := st.«matches».set j (P, ros1) } + {w} +
      (ros1 : Multiset Applicant) = footprint st + (ros1 : Multiset Applicant) := by
    rw [show footprint { st with «matches» := st.«matches».set j (P, ros1) } + {w} +
        (ros1 : Multiset Applicant) =
      footprint { st with «matches» := st.«matches».set j (P, ros1) } +
        (w ::ₘ (ros1 : Multiset Applicant)) by rw [← Multiset.singleton_add]; abel]
    rw [h2]
  exact add_right_cancel h3

theorem fp_chain2 {x y z w0 w1 a b : Multiset Applicant}
    (e1 : x + w1 = y + b) (e0 : y + w0 = z + a) :
    x + w0 + w1 = z + a + b := by
  have h1 : x + w0 + w1 = x + w1 + w0 := by abel
  rw [h1, e1]
  have h2 : y + b + w0 = y + w0 + b := by abel
  rw [h2, e0]
def optMass : Option Applicant → Multiset Applicant
  | none => 0
  | some b => {b}

theorem footprint_adds :
    ∀ fuel : Nat,
      (∀ st a st2, attemptSingleMatch fuel st a = .ok st2 →
        footprint st2 = footprint st + {a}) ∧
      (∀ st a l st2, singleGo fuel st a l = .ok st2 →
        footprint st2 = footprint st + {a}) ∧
      (∀ st a ob st2, attemptCouplesMatch fuel st a ob = .ok st2 →
        footprint st2 = footprint st + {a} + optMass ob) ∧
      (∀ st a b l st2, couplesGo fuel st a b l = .ok st2 →
        footprint st2 = footprint st + {a} + {b}) ∧
      (∀ st w st2, retryMatch fuel st w = .ok st2 →
        footprint st2 = footprint st + {w}) := by
  intro fuel
  induction fuel with
  | zero =>
    refine ⟨?_, ?_, ?_, ?_, ?_⟩ <;> intro st a
    · intro st2 h; simp [attemptSingleMatch] at h
    · intro l st2 h; simp [singleGo] at h
    · intro ob st2 h; simp [attemptCouplesMatch] at h
    · intro b l st2 h; simp [couplesGo] at h
    · intro st2 h; simp [retryMatch] at h
  | succ n ih =>
    obtain ⟨ihS, ihG, ihC, ihCG, ihR⟩ := ih
    refine ⟨?_, ?_, ?_, ?_, ?_⟩
    · -- attemptSingleMatch
      intro st a st2 h
      simp only [attemptSingleMatch] at h
      split at h
      · simp at h
      · exact ihG _ _ _ _ h
    · -- singleGo
      intro st a l st2 h
      match l with
      | [] =>
        simp only [singleGo] at h
        obtain rfl : _ = st2 := by injection h
        exact footprint_unmatched_one st a
      | pid :: rest =>
        simp only [singleGo] at h
        split at h
        · simp at h
        rename_i P roster hfp
        split at h
        · exact ihG _ _ _ _ h
        rename_i aRank hpos
        split at h
        · exact ihG _ _ _ _ h
        rename_i hcap0
        split at h
        · -- free slot
          split at h
          · obtain rfl : _ = st2 := by injection h
            exact fp_push a hfp
          · simp at h
        · -- full: displacement path
          split at h
          · simp at h
          rename_i rm hrm
          split at h
          · simp at h
          rename_i wIdx wRank hmax
          split at h
          · -- aRank < wRank
            split at h
            · simp at h
            rename_i w ros1 hsw
            split at h
            · -- assert ok
              rename_i hlen
              have hkey := fp_swap_push a hfp hsw
              split at h
              · -- w single: retryMatch
                have h2 := ihR _ _ _ h
                rw [h2, hkey]
              · -- w coupled
                rename_i c hc
                split at h
                · rename_i i hidx
                  split at h
                  · simp at h
                  · rename_i wc ros3 hsw2
                    have h2 := ihC _ _ _ _ h
                    have hfp1 : findProg (setRoster st pid (ros1 ++ [a])).«matches» pid =
                        some (P, ros1 ++ [a]) :=
                      modifyFirstRoster_findProg_same _ hfp
                    have hpull := fp_pull hfp1 hsw2
                    rw [h2, optMass]
                    rw [show footprint (setRoster (setRoster st pid (ros1 ++ [a])) pid ros3) +
                        {w} + {wc} =
                      footprint (setRoster (setRoster st pid (ros1 ++ [a])) pid ros3) + {wc} +
                        {w} by abel]
                    rw [hpull, hkey]
                · have h2 := ihR _ _ _ h
                  rw [h2, hkey]
            · simp at h
          · exact ihG _ _ _ _ h
    · -- attemptCouplesMatch
      intro st a ob st2 h
      match ob with
      | none =>
        simp only [attemptCouplesMatch] at h
        have h2 := ihS _ _ _ h
        simp [optMass, h2]
      | some b =>
        simp only [attemptCouplesMatch] at h
        split at h
        · simp at h
        · have h2 := ihCG _ _ _ _ _ h
          simp [optMass, h2]
    · -- couplesGo
      intro st a b l st2 h
      match l with
      | [] =>
        simp only [couplesGo] at h
        obtain rfl : _ = st2 := by injection h
        exact footprint_unmatched_two st a b
      | (pid0, pid1) :: rest =>
        simp only [couplesGo] at h
        split at h
        · simp at h
        rename_i P0 ros0 hfp0
        split at h
        · simp at h
        rename_i P1 ros1 hfp1
        split at h
        case _ rank0 rank1 hr0 hr1 =>
          split at h
          · exact ihCG _ _ _ _ _ h
          rename_i hcaps
          split at h
          · simp at h
          rename_i r0m hr0m
          split at h
          case isTrue hsame =>
            -- same-program branch
            split at h
            case _ havail =>
              -- available == 0
              split at h
              · simp at h
              rename_i wi0 wr0 r0tail hsorted
              split at h
              case isFalse => exact ihCG _ _ _ _ _ h
              case isTrue hlt0 =>
              split at h
              · simp at h
              rename_i wi1 wr1 rtail2 htail
              split at h
              case isFalse => exact ihCG _ _ _ _ _ h
              case isTrue hlt1 =>
              split at h
              · simp at h
              rename_i w0 s1 hsw0
              split at h
              · simp at h
              rename_i w1 s2 hsw1
              split at h
              case isFalse => simp at h
              case isTrue hlen =>
              have hkey := fp_swap2_push2 (P := P0) a b hfp0 hsw0 hsw1
              split at h
              case _ c hc =>
                -- w0 coupled
                split at h
                case isTrue heqc =>
                  have h2 := ihC _ _ _ _ h
                  rw [h2, optMass, hkey]
                case isFalse =>
                split at h
                case _ i hidx =>
                  split at h
                  · simp at h
                  rename_i extra s4 hswx
                  rw [bind_eq_ok] at h
                  obtain ⟨stm, h1, h2⟩ := h
                  have e1 := ihC _ _ _ _ h1
                  have e2 := ihR _ _ _ h2
                  have hfpx : findProg (setRoster st pid0 (s2 ++ [a, b])).«matches» pid0 =
                      some (P0, s2 ++ [a, b]) :=
                    modifyFirstRoster_findProg_same _ hfp0
                  have hpull := fp_pull hfpx hswx
                  rw [e2, e1, optMass, ← hkey, ← hpull]
                  abel
                case _ hidx =>
                  rw [bind_eq_ok] at h
                  obtain ⟨stm, h1, h2⟩ := h
                  have e1 := ihR _ _ _ h1
                  have e2 := ihR _ _ _ h2
                  rw [e2, e1, ← hkey]
                  abel
              case _ hc =>
                -- w0 single
                split at h
                case _ hc1 =>
                  -- w1 single
                  rw [bind_eq_ok] at h
                  obtain ⟨stm, h1, h2⟩ := h
                  have e1 := ihR _ _ _ h1
                  have e2 := ihR _ _ _ h2
                  rw [e2, e1, ← hkey]
                  abel
                case _ c hc1 =>
                  split at h
                  case _ i hidx =>
                    split at h
                    · simp at h
                    rename_i extra s4 hswx
                    rw [bind_eq_ok] at h
                    obtain ⟨stm, h1, h2⟩ := h
                    have e1 := ihR _ _ _ h1
                    have e2 := ihC _ _ _ _ h2
                    have hfpx : findProg (setRoster st pid0 (s2 ++ [a, b])).«matches» pid0 =
                        some (P0, s2 ++ [a, b]) :=
                      modifyFirstRoster_findProg_same _ hfp0
                    have hpull := fp_pull hfpx hswx
                    rw [e2, e1, optMass, ← hkey, ← hpull]
                    abel
                  case _ hidx =>
                    rw [bind_eq_ok] at h
                    obtain ⟨stm, h1, h2⟩ := h
                    have e1 := ihR _ _ _ h1
                    have e2 := ihR _ _ _ h2
                    rw [e2, e1, ← hkey]
                    abel
            case _ havail =>
              -- available == 1
              split at h
              · simp at h
              rename_i wi wr rtail hsorted
              split at h
              case isFalse => exact ihCG _ _ _ _ _ h
              case isTrue hlt =>
              split at h
              · simp at h
              rename_i w s1 hsw
              split at h
              case isFalse => simp at h
              case isTrue hlen =>
              have hkey := fp_swap_push2 (P := P0) a b hfp0 hsw
              split at h
              case _ hc =>
                have h2 := ihR _ _ _ h
                rw [h2, hkey]
              case _ c hc =>
                split at h
                case _ i hidx =>
                  split at h
                  · simp at h
                  rename_i wc s3 hswx
                  have h2 := ihC _ _ _ _ h
                  have hfpx : findProg (setRoster st pid0 (s1 ++ [a, b])).«matches» pid0 =
                      some (P0, s1 ++ [a, b]) :=
                    modifyFirstRoster_findProg_same _ hfp0
                  have hpull := fp_pull hfpx hswx
                  rw [h2, optMass, ← hkey, ← hpull]
                  abel
                case _ hidx =>
                  have h2 := ihR _ _ _ h
                  rw [h2, hkey]
            case _ k havail =>
              -- available ≥ 2
              split at h
              case isFalse => simp at h
              case isTrue h2le =>
              split at h
              case isFalse => simp at h
              case isTrue hlen =>
              split at h
              case _ htc =>
                obtain rfl : _ = st2 := by injection h
                exact fp_push2 a b hfp0
              case _ htc => simp at h
          case isFalse hsame =>
            -- distinct-programs branch
            split at h
            case isTrue => simp at h
            case isFalse hne =>
            split at h
            case isTrue hfree =>
              split at h
              case isFalse => simp at h
              case isTrue hlen0 =>
              split at h
              · simp at h
              rename_i P1b r1b hfp1b
              split at h
              case isFalse => simp at h
              case isTrue hlen1 =>
              split at h
              case _ htc =>
                obtain rfl : _ = st2 := by injection h
                have e0 := fp_push (P := P0) a hfp0
                have e1 := fp_push (P := P1b) b hfp1b
                rw [e1, e0]
              case _ htc => simp at h
            case isFalse hfull =>
              split at h
              · simp at h
              rename_i r1m hr1m
              split at h
              · simp at h
              rename_i wi0 wr0 rt0 hs0
              split at h
              · simp at h
              rename_i wi1 wr1 rt1 hs1
              split at h
              case isFalse => exact ihCG _ _ _ _ _ h
              case isTrue hlt =>
              split at h
              · simp at h
              rename_i w0 t0 hsw0
              split at h
              case isFalse => simp at h
              case isTrue hlen0 =>
              split at h
              · simp at h
              rename_i P1b r1b hfp1b
              split at h
              · simp at h
              rename_i w1 t1 hsw1
              split at h
              case isFalse => simp at h
              case isTrue hlen1 =>
              split at h
              case _ htc =>
                rw [bind_eq_ok] at h
                obtain ⟨stm, h1, h2⟩ := h
                have e0 := fp_swap_push (P := P0) a hfp0 hsw0
                have e1 := fp_swap_push (P := P1b) b hfp1b hsw1
                have em := ihR _ _ _ h1
                have e2 := ihR _ _ _ h2
                rw [e2, em]
                exact fp_chain2 e1 e0
              case _ htc => simp at h
        case _ hr0 hr1 =>
          exact ihCG _ _ _ _ _ h
    · -- retryMatch
      intro st w st2 h
      simp only [retryMatch] at h
      split at h
      case _ hc => exact ihS _ _ _ h
      case _ c hc =>
        split at h
        · simp at h
        rename_i j hj
        split at h
        · simp at h
        rename_i P ros hjp
        split at h
        · simp at h
        rename_i i hi
        split at h
        · simp at h
        rename_i partner ros1 hsw
        have h2 := ihC _ _ _ _ h
        have hpull := fp_pull_idx hjp hsw
        rw [h2, optMass, ← hpull]
        abel

/-- Total mass contributed by the input units of `run_match`. -/
def unitsMass : List (Applicant × Option Applicant) → Multiset Applicant
  | [] => 0
  | (a, ob) :: rest => {a} + optMass ob + unitsMass rest

/-- The input applicants in order, couples flattened. -/
def flattenUnits : List (Applicant × Option Applicant) → List Applicant
  | [] => []
  | (a, none) :: rest => a :: flattenUnits rest
  | (a, some b) :: rest => a :: b :: flattenUnits rest

theorem flattenUnits_mass (units : List (Applicant × Option Applicant)) :
    (flattenUnits units : Multiset Applicant) = unitsMass units := by
  induction units with
  | nil => simp [flattenUnits, unitsMass]
  | cons u rest ih =>
    obtain ⟨a, ob⟩ := u
    cases ob with
    | none =>
      simp only [flattenUnits, unitsMass, optMass, ← Multiset.cons_coe, ih]
      rw [← Multiset.singleton_add]
      abel
    | some b =>
      simp only [flattenUnits, unitsMass, optMass, ← Multiset.cons_coe, ih]
      rw [← Multiset.singleton_add, ← Multiset.singleton_add]
      abel

theorem rosterMems_filter_pos (ms : List (Program × List Applicant)) :
    rosterMems (ms.filter fun m => 0 < m.2.length) = rosterMems ms := by
  induction ms with
  | nil => simp [rosterMems]
  | cons m ms ih =>
    by_cases hlen : 0 < m.2.length
    · rw [List.filter_cons_of_pos (by simpa using hlen)]
      simp only [rosterMems, ih]
    · rw [List.filter_cons_of_neg (by simpa using hlen)]
      have hm : m.2 = [] := by
        cases hm2 : m.2 with
        | nil => rfl
        | cons x xs => rw [hm2] at hlen; simp at hlen
      simp only [rosterMems, ih, hm]
      simp

theorem footprint_finalize (st : MState) : footprint (finalize st) = footprint st := by
  simp only [footprint, finalize, rosterMems_filter_pos]

theorem runGo_some_not_ok (fuel : Nat) (units : List (Applicant × Option Applicant)) :
    ∀ st e st2, runGo fuel st units (some e) ≠ .ok st2 := by
  induction units with
  | nil => intro st e st2 h; simp [runGo] at h
  | cons u rest ih =>
    intro st e st2 h
    obtain ⟨a, ob⟩ := u
    simp only [runGo] at h
    split at h
    · exact ih _ _ _ h
    · exact ih _ _ _ h
    · rename_i r hne1 hne2
      exact hne1 _ h

theorem runGo_fp (fuel : Nat) (units : List (Applicant × Option Applicant)) :
    ∀ st st2, runGo fuel st units none = .ok st2 →
      footprint st2 = footprint st + unitsMass units := by
  induction units with
  | nil =>
    intro st st2 h
    simp only [runGo] at h
    obtain rfl : _ = st2 := by injection h
    simp [unitsMass, footprint_finalize]
  | cons u rest ih =>
    intro st st2 h
    obtain ⟨a, ob⟩ := u
    simp only [runGo] at h
    split at h
    case _ st1 hcall =>
      have e1 := (footprint_adds fuel).2.2.1 _ _ _ _ hcall
      have e2 := ih _ _ h
      rw [e2, e1, unitsMass]
      abel
    case _ e st1 hcall =>
      exact absurd h (runGo_some_not_ok _ _ _ _ _)
    · rename_i r hne1 hne2
      exact absurd h (fun hh => hne1 _ hh)

theorem rosterMems_empty (programs : List Program) :
    rosterMems (programs.map fun p => (p, ([] : List Applicant))) = 0 := by
  induction programs with
  | nil => simp [rosterMems]
  | cons p ps ih => simp [rosterMems, ih]
/-- The capacity invariant: every tentative roster is within its program's
capacity. -/
def CapInv (st : MState) : Prop :=
  ∀ m ∈ st.«matches», m.2.length ≤ m.1.capacity

theorem capInv_mfr {ms : List (Program × List Applicant)} {pid : Nat}
    {P : Program} {ros : List Applicant} {ros2 : List Applicant}
    (hc : ∀ m ∈ ms, m.2.length ≤ m.1.capacity)
    (h : findProg ms pid = some (P, ros)) (hlen : ros2.length ≤ P.capacity) :
    ∀ m ∈ modifyFirstRoster ms pid ros2, m.2.length ≤ m.1.capacity := by
  induction ms with
  | nil => simp [modifyFirstRoster]
  | cons m ms ih =>
    rw [findProg_cons] at h
    by_cases hm : (m.1.id == pid) = true
    · rw [hm, if_pos rfl, Option.some_inj] at h
      subst h
      simp only [modifyFirstRoster, hm, if_true]
      intro x hx
      rcases List.mem_cons.1 hx with rfl | hx2
      · exact hlen
      · exact hc x (List.mem_cons_of_mem _ hx2)
    · rw [if_neg (by simp [hm])] at h
      simp only [modifyFirstRoster, hm, if_false, Bool.false_eq_true]
      intro x hx
      rcases List.mem_cons.1 hx with rfl | hx2
      · exact hc x (List.mem_cons_self _ _)
      · exact ih (fun y hy => hc y (List.mem_cons_of_mem _ hy)) h x hx2

theorem capInv_setRoster {st : MState} {pid : Nat} {P : Program}
    {ros ros2 : List Applicant} (hc : CapInv st)
    (h : findProg st.«matches» pid = some (P, ros))
    (hlen : ros2.length ≤ P.capacity) : CapInv (setRoster st pid ros2) :=
  capInv_mfr hc h hlen

theorem capInv_setIdx {st : MState} {j : Nat} {P : Program}
    {ros ros2 : List Applicant} (hc : CapInv st)
    (h : st.«matches»[j]? = some (P, ros)) (hlen : ros2.length ≤ P.capacity) :
    CapInv { st with «matches» := st.«matches».set j (P, ros2) } := by
  intro m hm
  rcases List.mem_or_eq_of_mem_set hm with hmem | heq
  · exact hc m hmem
  · subst heq; exact hlen

theorem findProg_mem {ms : List (Program × List Applicant)} {pid : Nat}
    {P : Program} {ros : List Applicant} (h : findProg ms pid = some (P, ros)) :
    (P, ros) ∈ ms :=
  List.mem_of_find?_eq_some h

theorem capInv_finalize {st : MState} (hc : CapInv st) : CapInv (finalize st) := by
  intro m hm
  exact hc m (List.mem_of_mem_filter hm)

theorem capInv_all :
    ∀ fuel : Nat,
      (∀ st a st2, CapInv st → (attemptSingleMatch fuel st a).state? = some st2 →
        CapInv st2) ∧
      (∀ st a l st2, CapInv st → (singleGo fuel st a l).state? = some st2 →
        CapInv st2) ∧
      (∀ st a ob st2, CapInv st → (attemptCouplesMatch fuel st a ob).state? = some st2 →
        CapInv st2) ∧
      (∀ st a b l st2, CapInv st → (couplesGo fuel st a b l).state? = some st2 →
        CapInv st2) ∧
      (∀ st w st2, CapInv st → (retryMatch fuel st w).state? = some st2 →
        CapInv st2) := by
  intro fuel
  induction fuel with
  | zero =>
    refine ⟨?_, ?_, ?_, ?_, ?_⟩ <;> intro st a
    · intro st2 hc h; simp [attemptSingleMatch, Res.state?] at h
    · intro l st2 hc h; simp [singleGo, Res.state?] at h
    · intro ob st2 hc h; simp [attemptCouplesMatch, Res.state?] at h
    · intro b l st2 hc h; simp [couplesGo, Res.state?] at h
    · intro st2 hc h; simp [retryMatch, Res.state?] at h
  | succ n ih =>
    obtain ⟨ihS, ihG, ihC, ihCG, ihR⟩ := ih
    have hok : ∀ (X : MState) st2, (Res.ok X).state? = some st2 → X = st2 := by
      intro X st2 h; simpa [Res.state?] using h
    have herr : ∀ (e : MatchError) (X : MState) st2,
        (Res.err e X).state? = some st2 → X = st2 := by
      intro e X st2 h; simpa [Res.state?] using h
    refine ⟨?_, ?_, ?_, ?_, ?_⟩
    · -- attemptSingleMatch
      intro st a st2 hc h
      simp only [attemptSingleMatch] at h
      split at h
      · simp [Res.state?] at h
      · exact ihG _ _ _ _ hc h
    · -- singleGo
      intro st a l st2 hc h
      match l with
      | [] =>
        simp only [singleGo] at h
        obtain rfl := hok _ _ h
        exact hc
      | pid :: rest =>
        simp only [singleGo] at h
        split at h
        · obtain rfl := herr _ _ _ h
          exact hc
        rename_i P roster hfp
        split at h
        · exact ihG _ _ _ _ hc h
        rename_i aRank hpos
        split at h
        · exact ihG _ _ _ _ hc h
        rename_i hcap0
        split at h
        · split at h
          · rename_i hlen
            obtain rfl := hok _ _ h
            exact capInv_setRoster hc hfp hlen
          · simp [Res.state?] at h
        · split at h
          · obtain rfl := herr _ _ _ h
            exact hc
          rename_i rm hrm
          split at h
          · simp [Res.state?] at h
          rename_i wIdx wRank hmax
          split at h
          · split at h
            · simp [Res.state?] at h
            rename_i w ros1 hsw
            split at h
            · rename_i hlen
              have hc1 : CapInv (setRoster st pid (ros1 ++ [a])) :=
                capInv_setRoster hc hfp hlen
              split at h
              · exact ihR _ _ _ hc1 h
              · rename_i c hcpl
                split at h
                · rename_i i hidx
                  split at h
                  · simp [Res.state?] at h
                  · rename_i wc ros3 hsw2
                    have hfp1 : findProg (setRoster st pid (ros1 ++ [a])).«matches» pid =
                        some (P, ros1 ++ [a]) :=
                      modifyFirstRoster_findProg_same _ hfp
                    have hlen3 : ros3.length ≤ P.capacity := by
                      have := swapRemove_length hsw2
                      omega
                    have hc2 := capInv_setRoster hc1 hfp1 hlen3
                    exact ihC _ _ _ _ hc2 h
                · exact ihR _ _ _ hc1 h
            · simp [Res.state?] at h
          · exact ihG _ _ _ _ hc h
    · -- attemptCouplesMatch
      intro st a ob st2 hc h
      match ob with
      | none =>
        simp only [attemptCouplesMatch] at h
        exact ihS _ _ _ hc h
      | some b =>
        simp only [attemptCouplesMatch] at h
        split at h
        · simp [Res.state?] at h
        · exact ihCG _ _ _ _ _ hc h
    · -- couplesGo
      intro st a b l st2 hc h
      match l with
      | [] =>
        simp only [couplesGo] at h
        obtain rfl := hok _ _ h
        exact hc
      | (pid0, pid1) :: rest =>
        simp only [couplesGo] at h
        split at h
        · obtain rfl := herr _ _ _ h
          exact hc
        rename_i P0 ros0 hfp0
        split at h
        · obtain rfl := herr _ _ _ h
          exact hc
        rename_i P1 ros1 hfp1
        split at h
        case _ rank0 rank1 hr0 hr1 =>
          split at h
          · exact ihCG _ _ _ _ _ hc h
          rename_i hcaps
          split at h
          · obtain rfl := herr _ _ _ h
            exact hc
          rename_i r0m hr0m
          split at h
          case isTrue hsame =>
            split at h
            case _ havail =>
              split at h
              · simp [Res.state?] at h
              rename_i wi0 wr0 r0tail hsorted
              split at h
              case isFalse => exact ihCG _ _ _ _ _ hc h
              case isTrue hlt0 =>
              split at h
              · simp [Res.state?] at h
              rename_i wi1 wr1 rtail2 htail
              split at h
              case isFalse => exact ihCG _ _ _ _ _ hc h
              case isTrue hlt1 =>
              split at h
              · simp [Res.state?] at h
              rename_i w0 s1 hsw0
              split at h
              · simp [Res.state?] at h
              rename_i w1 s2 hsw1
              split at h
              case isFalse => simp [Res.state?] at h
              case isTrue hlen =>
              have hc1 : CapInv (setRoster st pid0 (s2 ++ [a, b])) :=
                capInv_setRoster hc hfp0 hlen
              have hfpx : findProg (setRoster st pid0 (s2 ++ [a, b])).«matches» pid0 =
                  some (P0, s2 ++ [a, b]) :=
                modifyFirstRoster_findProg_same _ hfp0
              split at h
              case _ c hcpl =>
                split at h
                case isTrue heqc => exact ihC _ _ _ _ hc1 h
                case isFalse =>
                split at h
                case _ i hidx =>
                  split at h
                  · simp [Res.state?] at h
                  rename_i extra s4 hswx
                  have hlen4 : s4.length ≤ P0.capacity := by
                    have := swapRemove_length hswx
                    omega
                  have hc2 := capInv_setRoster hc1 hfpx hlen4
                  rcases bind_state? h with ⟨stm, h1, h2⟩ | ⟨e, h1⟩
                  · have hcm := ihC _ _ _ _ hc2 (by rw [h1, Res.state?])
                    exact ihR _ _ _ hcm h2
                  · exact ihC _ _ _ _ hc2 (by rw [h1]; simp [Res.state?])
                case _ hidx =>
                  rcases bind_state? h with ⟨stm, h1, h2⟩ | ⟨e, h1⟩
                  · have hcm := ihR _ _ _ hc1 (by rw [h1, Res.state?])
                    exact ihR _ _ _ hcm h2
                  · exact ihR _ _ _ hc1 (by rw [h1]; simp [Res.state?])
              case _ hcpl =>
                split at h
                case _ hcpl1 =>
                  rcases bind_state? h with ⟨stm, h1, h2⟩ | ⟨e, h1⟩
                  · have hcm := ihR _ _ _ hc1 (by rw [h1, Res.state?])
                    exact ihR _ _ _ hcm h2
                  · exact ihR _ _ _ hc1 (by rw [h1]; simp [Res.state?])
                case _ c hcpl1 =>
                  split at h
                  case _ i hidx =>
                    split at h
                    · simp [Res.state?] at h
                    rename_i extra s4 hswx
                    have hlen4 : s4.length ≤ P0.capacity := by
                      have := swapRemove_length hswx
                      omega
                    have hc2 := capInv_setRoster hc1 hfpx hlen4
                    rcases bind_state? h with ⟨stm, h1, h2⟩ | ⟨e, h1⟩
                    · have hcm := ihR _ _ _ hc2 (by rw [h1, Res.state?])
                      exact ihC _ _ _ _ hcm h2
                    · exact ihR _ _ _ hc2 (by rw [h1]; simp [Res.state?])
                  case _ hidx =>
                    rcases bind_state? h with ⟨stm, h1, h2⟩ | ⟨e, h1⟩
                    · have hcm := ihR _ _ _ hc1 (by rw [h1, Res.state?])
                      exact ihR _ _ _ hcm h2
                    · exact ihR _ _ _ hc1 (by rw [h1]; simp [Res.state?])
            case _ havail =>
              split at h
              · simp [Res.state?] at h
              rename_i wi wr rtail hsorted
              split at h
              case isFalse => exact ihCG _ _ _ _ _ hc h
              case isTrue hlt =>
              split at h
              · simp [Res.state?] at h
              rename_i w s1 hsw
              split at h
              case isFalse => simp [Res.state?] at h
              case isTrue hlen =>
              have hc1 : CapInv (setRoster st pid0 (s1 ++ [a, b])) :=
                capInv_setRoster hc hfp0 hlen
              split at h
              case _ hcpl => exact ihR _ _ _ hc1 h
              case _ c hcpl =>
                split at h
                case _ i hidx =>
                  split at h
                  · simp [Res.state?] at h
                  rename_i wc s3 hswx
                  have hfpx : findProg (setRoster st pid0 (s1 ++ [a, b])).«matches» pid0 =
                      some (P0, s1 ++ [a, b]) :=
                    modifyFirstRoster_findProg_same _ hfp0
                  have hlen3 : s3.length ≤ P0.capacity := by
                    have := swapRemove_length hswx
                    omega
                  have hc2 := capInv_setRoster hc1 hfpx hlen3
                  exact ihC _ _ _ _ hc2 h
                case _ hidx => exact ihR _ _ _ hc1 h
            case _ k havail =>
              split at h
              case isFalse => simp [Res.state?] at h
              case isTrue h2le =>
              split at h
              case isFalse => simp [Res.state?] at h
              case isTrue hlen =>
              split at h
              case _ htc =>
                obtain rfl := hok _ _ h
                exact capInv_setRoster hc hfp0 hlen
              case _ htc => simp [Res.state?] at h
          case isFalse hsame =>
            split at h
            case isTrue => simp [Res.state?] at h
            case isFalse hne =>
            split at h
            case isTrue hfree =>
              split at h
              case isFalse => simp [Res.state?] at h
              case isTrue hlen0 =>
              have hc1 : CapInv (setRoster st pid0 (ros0 ++ [a])) :=
                capInv_setRoster hc hfp0 hlen0
              split at h
              · obtain rfl := herr _ _ _ h
                exact hc1
              rename_i P1b r1b hfp1b
              split at h
              case isFalse => simp [Res.state?] at h
              case isTrue hlen1 =>
              split at h
              case _ htc =>
                obtain rfl := hok _ _ h
                exact capInv_setRoster hc1 hfp1b hlen1
              case _ htc => simp [Res.state?] at h
            case isFalse hfull =>
              split at h
              · obtain rfl := herr _ _ _ h
                exact hc
              rename_i r1m hr1m
              split at h
              · simp [Res.state?] at h
              rename_i wi0 wr0 rt0 hs0
              split at h
              · simp [Res.state?] at h
              rename_i wi1 wr1 rt1 hs1
              split at h
              case isFalse => exact ihCG _ _ _ _ _ hc h
              case isTrue hlt =>
              split at h
              · simp [Res.state?] at h
              rename_i w0 t0 hsw0
              split at h
              case isFalse => simp [Res.state?] at h
              case isTrue hlen0 =>
              have hc1 : CapInv (setRoster st pid0 (t0 ++ [a])) :=
                capInv_setRoster hc hfp0 hlen0
              split at h
              · obtain rfl := herr _ _ _ h
                exact hc1
              rename_i P1b r1b hfp1b
              split at h
              · simp [Res.state?] at h
              rename_i w1 t1 hsw1
              split at h
              case isFalse => simp [Res.state?] at h
              case isTrue hlen1 =>
              have hc2 : CapInv (setRoster (setRoster st pid0 (t0 ++ [a])) pid1 (t1 ++ [b])) :=
                capInv_setRoster hc1 hfp1b hlen1
              split at h
              case _ htc =>
                rcases bind_state? h with ⟨stm, h1, h2⟩ | ⟨e, h1⟩
                · have hcm := ihR _ _ _ hc2 (by rw [h1, Res.state?])
                  exact ihR _ _ _ hcm h2
                · exact ihR _ _ _ hc2 (by rw [h1]; simp [Res.state?])
              case _ htc => simp [Res.state?] at h
        case _ hr0 hr1 =>
          exact ihCG _ _ _ _ _ hc h
    · -- retryMatch
      intro st w st2 hc h
      simp only [retryMatch] at h
      split at h
      case _ hcpl => exact ihS _ _ _ hc h
      case _ c hcpl =>
        split at h
        · simp [Res.state?] at h
        rename_i j hj
        split at h
        · simp [Res.state?] at h
        rename_i P ros hjp
        split at h
        · obtain rfl := herr _ _ _ h
          exact hc
        rename_i i hi
        split at h
        · simp [Res.state?] at h
        rename_i partner ros1 hsw
        have hlen1 : ros1.length ≤ P.capacity := by
          have h1 := swapRemove_length hsw
          have h2 := hc (P, ros) (by
            have := List.getElem?_eq_some.1 hjp
            obtain ⟨hlt, hco⟩ := this
            rw [← hco]
            exact List.getElem_mem _)
          simp at h2
          omega
        have hc1 := capInv_setIdx hc hjp hlen1
        exact ihC _ _ _ _ hc1 h

theorem runGo_capInv (fuel : Nat) (units : List (Applicant × Option Applicant)) :
    ∀ st fe st2, CapInv st → runGo fuel st units fe = .ok st2 → CapInv st2 := by
  induction units with
  | nil =>
    intro st fe st2 hc h
    cases fe with
    | none =>
      simp only [runGo] at h
      obtain rfl : _ = st2 := by injection h
      exact capInv_finalize hc
    | some e => simp [runGo] at h
  | cons u rest ih =>
    intro st fe st2 hc h
    obtain ⟨a, ob⟩ := u
    simp only [runGo] at h
    split at h
    case _ st1 hcall =>
      have hc1 := (capInv_all fuel).2.2.1 _ _ _ _ hc (by rw [hcall, Res.state?])
      exact ih _ _ _ hc1 h
    case _ e st1 hcall =>
      have hc1 := (capInv_all fuel).2.2.1 st a ob st1 hc (by rw [hcall]; rfl)
      exact ih _ _ _ hc1 h
    · rename_i r hne1 hne2
      exact absurd h (fun hh => hne1 _ hh)

/-- C3: the capacity bound holds after every matcher step that completes
without a panic (the state of an `Ok` or error outcome), and hence in the
final state of every successful `run_match`. -/
theorem capacity_bound :
    (∀ fuel st a ob st2, CapInv st →
        (attemptCouplesMatch fuel st a ob).state? = some st2 → CapInv st2) ∧
    (∀ fuel units programs st, runMatch fuel units programs = .ok st →
        CapInv st) := by
  constructor
  · intro fuel st a ob st2 hc h
    exact (capInv_all fuel).2.2.1 _ _ _ _ hc h
  · intro fuel units programs st h
    simp only [runMatch] at h
    refine runGo_capInv fuel units _ _ _ ?_ h
    intro m hm
    simp only [List.mem_map] at hm
    obtain ⟨p, hp, rfl⟩ := hm
    simp

/-- Witness for C3 at the trivial one-applicant scenario. -/
theorem capacity_bound_witness :
    CapInv ⟨[(⟨0, 1, [1]⟩, [⟨1, none, [0]⟩])], [], []⟩ :=
  capacity_bound.2 10 [(⟨1, none, [0]⟩, none)] [⟨0, 1, [1]⟩] _ (by decide)

/-- C2: the multiset of applicants distributed across the tentative rosters
and the unmatched pool after a successful `run_match` is exactly the multiset
of input applicants; when the input applicants are pairwise distinct every
applicant therefore appears exactly once. -/
theorem disjoint_placement (fuel : Nat) (units : List (Applicant × Option Applicant))
    (programs : List Program) (st : MState)
    (h : runMatch fuel units programs = .ok st) :
    footprint st = (flattenUnits units : Multiset Applicant) ∧
      ((flattenUnits units).Nodup → (footprint st).Nodup) := by
  simp only [runMatch] at h
  have h2 := runGo_fp fuel units _ _ h
  have h0 : footprint ⟨programs.map (fun p => (p, [])), [], []⟩ = 0 := by
    simp [footprint, rosterMems_empty]
  rw [h0, zero_add] at h2
  constructor
  · rw [h2, flattenUnits_mass]
  · intro hnd
    rw [h2, ← flattenUnits_mass]
    exact Multiset.coe_nodup.2 hnd

/-- Witness for C2 at the trivial one-applicant scenario. -/
theorem disjoint_placement_witness :
    footprint ⟨[(⟨0, 1, [1]⟩, [⟨1, none, [0]⟩])], [], []⟩ =
      (flattenUnits [(⟨1, none, [0]⟩, none)] : Multiset Applicant) ∧
      ((flattenUnits [(⟨1, none, [0]⟩, none)]).Nodup →
        (footprint ⟨[(⟨0, 1, [1]⟩, [⟨1, none, [0]⟩])], [], []⟩).Nodup) :=
  disjoint_placement 10 [(⟨1, none, [0]⟩, none)] [⟨0, 1, [1]⟩] _ (by decide)
/-! ## Couple atomicity (C1) -/

/-- `x` sits in the roster of program id `pid` (the entry the matcher's
`find` sees). -/
def InRosterOf (st : MState) (pid : Nat) (x : Applicant) : Prop :=
  ∃ e, findProg st.«matches» pid = some e ∧ x ∈ e.2

/-- `x` sits in some tentative roster. -/
def rosterHas (st : MState) (x : Applicant) : Prop :=
  ∃ m ∈ st.«matches», x ∈ m.2

/-- The two partners are placed at a common position of their joint rank
lists: some `k` with `x` in the roster of `x.ranking[k]` and `y` in the
roster of `y.ranking[k]`. -/
def SameK (st : MState) (x y : Applicant) : Prop :=
  ∃ (k p q : Nat), x.ranking[k]? = some p ∧ y.ranking[k]? = some q ∧
    InRosterOf st p x ∧ InRosterOf st q y

/-- Every coupled roster member has its partner placed at the same joint
position. -/
def PlacedInv (st : MState) : Prop :=
  ∀ m ∈ st.«matches», ∀ x ∈ m.2, ∀ c, x.couple = some c →
    ∃ y, y.id = c ∧ y.couple = some x.id ∧ SameK st x y

/-- Every coupled applicant in the unmatched pool has its partner in the
pool as well. -/
def UnmatchedInv (st : MState) : Prop :=
  ∀ x ∈ st.unmatched_a, ∀ c, x.couple = some c →
    ∃ y ∈ st.unmatched_a, y.id = c ∧ y.couple = some x.id

def MatcherInv (st : MState) : Prop := PlacedInv st ∧ UnmatchedInv st

/-- Well-formed applicant universe: pairwise distinct ids and a mutual
partner inside the universe for every coupled applicant. -/
def GoodU (U : List Applicant) : Prop :=
  (U.map (fun x => x.id)).Nodup ∧
  (∀ x ∈ U, ∀ c, x.couple = some c → ∃ z ∈ U, z.id = c ∧ z.couple = some x.id)

theorem nodup_map_id_inj {U : List Applicant}
    (h : (U.map (fun x => x.id)).Nodup) :
    ∀ x ∈ U, ∀ y ∈ U, x.id = y.id → x = y := by
  induction U with
  | nil => simp
  | cons u us ih =>
    simp only [List.map_cons, List.nodup_cons] at h
    obtain ⟨hnot, hnd⟩ := h
    intro x hx y hy hf
    rcases List.mem_cons.1 hx with rfl | hx2 <;> rcases List.mem_cons.1 hy with rfl | hy2
    · rfl
    · exact absurd (hf ▸ List.mem_map_of_mem (fun z => z.id) hy2) hnot
    · exact absurd (hf ▸ List.mem_map_of_mem (fun z => z.id) hx2) hnot
    · exact ih hnd x hx2 y hy2 hf

theorem goodU_idInj {U : List Applicant} (hU : GoodU U) :
    ∀ x ∈ U, ∀ y ∈ U, x.id = y.id → x = y :=
  nodup_map_id_inj hU.1

theorem goodU_nodup {U : List Applicant} (hU : GoodU U) : U.Nodup :=
  hU.1.of_map

theorem goodU_partner_unique {U : List Applicant} (hU : GoodU U)
    {x w : Applicant} {c : Nat} (hx : x ∈ U) (hw : w ∈ U)
    (hxc : x.couple = some c) (hwc : w.couple = some c) : x = w := by
  obtain ⟨z, hz, hzid, hzc⟩ := hU.2 x hx c hxc
  obtain ⟨z2, hz2, hz2id, hz2c⟩ := hU.2 w hw c hwc
  have hzeq : z = z2 := goodU_idInj hU z hz z2 hz2 (by rw [hzid, hz2id])
  subst hzeq
  have : x.id = w.id := by
    rw [hzc] at hz2c
    exact Option.some_inj.1 hz2c
  exact goodU_idInj hU x hx w hw this
theorem mem_rosterMems {ms : List (Program × List Applicant)}
    {m : Program × List Applicant} {x : Applicant}
    (hm : m ∈ ms) (hx : x ∈ m.2) : x ∈ rosterMems ms := by
  induction ms with
  | nil => simp at hm
  | cons m0 ms ih =>
    rcases List.mem_cons.1 hm with rfl | hm2
    · simp only [rosterMems, Multiset.mem_add]
      exact .inl (Multiset.mem_coe.2 hx)
    · simp only [rosterMems, Multiset.mem_add]
      exact .inr (ih hm2)

theorem mem_footprint_of_roster {st : MState} {m : Program × List Applicant}
    {x : Applicant} (hm : m ∈ st.«matches») (hx : x ∈ m.2) :
    x ∈ footprint st := by
  simp only [footprint, Multiset.mem_add]
  exact .inl (mem_rosterMems hm hx)

theorem mem_footprint_unmatched {st : MState} {x : Applicant}
    (hx : x ∈ st.unmatched_a) : x ∈ footprint st := by
  simp only [footprint, Multiset.mem_add]
  exact .inr (by simpa using hx)

theorem rosterMems_mem_cases {ms : List (Program × List Applicant)}
    {x : Applicant} (h : x ∈ rosterMems ms) : ∃ m ∈ ms, x ∈ m.2 := by
  induction ms with
  | nil => simp [rosterMems] at h
  | cons m ms ih =>
    simp only [rosterMems, Multiset.mem_add] at h
    rcases h with h | h
    · exact ⟨m, List.mem_cons_self _ _, Multiset.mem_coe.1 h⟩
    · obtain ⟨m2, hm2, hx2⟩ := ih h
      exact ⟨m2, List.mem_cons_of_mem _ hm2, hx2⟩

theorem footprint_cases {st : MState} {x : Applicant} (h : x ∈ footprint st) :
    rosterHas st x ∨ x ∈ st.unmatched_a := by
  simp only [footprint, Multiset.mem_add] at h
  rcases h with h | h
  · exact .inl (rosterMems_mem_cases h)
  · exact .inr (by simpa using h)

theorem mem_U_of_footprint {U : List Applicant} {st : MState}
    {A : Multiset Applicant} {x : Applicant}
    (hb : footprint st + A ≤ (U : Multiset Applicant))
    (hx : x ∈ footprint st) : x ∈ U := by
  have h1 : footprint st ≤ (U : Multiset Applicant) :=
    le_trans (Multiset.le_add_right _ _) hb
  simpa using Multiset.mem_of_le h1 hx

theorem not_mem_footprint {U : List Applicant} {st : MState} {w : Applicant}
    (hnd : U.Nodup) (hb : footprint st + {w} ≤ (U : Multiset Applicant)) :
    w ∉ footprint st := by
  intro hmem
  have hc := Multiset.le_iff_count.1 hb w
  rw [Multiset.count_add, Multiset.count_singleton_self] at hc
  have h1 : Multiset.count w (U : Multiset Applicant) ≤ 1 :=
    (Multiset.nodup_iff_count_le_one.1 (by simpa using hnd)) w
  have h2 : 1 ≤ Multiset.count w (footprint st) := Multiset.one_le_count_iff_mem.2 hmem
  omega

theorem InRosterOf_rosterHas {st : MState} {p : Nat} {x : Applicant}
    (h : InRosterOf st p x) : rosterHas st x := by
  obtain ⟨e, he, hx⟩ := h
  exact ⟨e, List.mem_of_find?_eq_some he, hx⟩

theorem rosterHas_mem_footprint {st : MState} {x : Applicant}
    (h : rosterHas st x) : x ∈ footprint st := by
  obtain ⟨m, hm, hx⟩ := h
  exact mem_footprint_of_roster hm hx

theorem findProg_id {ms : List (Program × List Applicant)} {pid : Nat}
    {e : Program × List Applicant} (h : findProg ms pid = some e) :
    e.1.id = pid := by
  have := List.find?_some h
  simpa using this

theorem inroster_new {st : MState} {pid : Nat} {P : Program}
    {ros ros2 : List Applicant} {x : Applicant}
    (hfp : findProg st.«matches» pid = some (P, ros)) (hx : x ∈ ros2) :
    InRosterOf (setRoster st pid ros2) pid x :=
  ⟨(P, ros2), modifyFirstRoster_findProg_same ros2 hfp, hx⟩

theorem inroster_upgrade {st : MState} {pid : Nat} {P : Program}
    {ros ros2 : List Applicant} (RL : List Applicant) {p : Nat} {x : Applicant}
    (hfp : findProg st.«matches» pid = some (P, ros))
    (hsub : ∀ z ∈ ros, z ∉ RL → z ∈ ros2) (hx : x ∉ RL)
    (h : InRosterOf st p x) : InRosterOf (setRoster st pid ros2) p x := by
  obtain ⟨e, he, hxe⟩ := h
  by_cases hp : pid = p
  · subst hp
    rw [hfp, Option.some_inj] at he
    subst he
    exact inroster_new hfp (hsub x hxe hx)
  · refine ⟨e, ?_, hxe⟩
    show findProg (modifyFirstRoster st.«matches» pid ros2) p = some e
    rw [modifyFirstRoster_findProg_other ros2 (by simpa using hp)]
    exact he

theorem samek_upgrade {st : MState} {pid : Nat} {P : Program}
    {ros ros2 : List Applicant} (RL : List Applicant) {x y : Applicant}
    (hfp : findProg st.«matches» pid = some (P, ros))
    (hsub : ∀ z ∈ ros, z ∉ RL → z ∈ ros2) (hx : x ∉ RL) (hy : y ∉ RL)
    (h : SameK st x y) : SameK (setRoster st pid ros2) x y := by
  obtain ⟨k, p, q, h1, h2, h3, h4⟩ := h
  exact ⟨k, p, q, h1, h2, inroster_upgrade RL hfp hsub hx h3,
    inroster_upgrade RL hfp hsub hy h4⟩

theorem mem_modifyFirstRoster {ms : List (Program × List Applicant)}
    {pid : Nat} {P : Program} {ros ros2 : List Applicant}
    {m : Program × List Applicant}
    (hfp : findProg ms pid = some (P, ros))
    (hm : m ∈ modifyFirstRoster ms pid ros2) : m = (P, ros2) ∨ m ∈ ms := by
  induction ms with
  | nil => simp [modifyFirstRoster] at hm
  | cons m0 ms ih =>
    rw [findProg_cons] at hfp
    by_cases h0 : (m0.1.id == pid) = true
    · rw [h0, if_pos rfl, Option.some_inj] at hfp
      subst hfp
      simp only [modifyFirstRoster, h0, if_true] at hm
      rcases List.mem_cons.1 hm with rfl | hm2
      · exact .inl rfl
      · exact .inr (List.mem_cons_of_mem _ hm2)
    · rw [if_neg (by simp [h0])] at hfp
      simp only [modifyFirstRoster, h0, if_false, Bool.false_eq_true] at hm
      rcases List.mem_cons.1 hm with rfl | hm2
      · exact .inr (List.mem_cons_self _ _)
      · rcases ih hfp hm2 with h | h
        · exact .inl h
        · exact .inr (List.mem_cons_of_mem _ h)

theorem swapRemove_getElem {α : Type} {l l2 : List α} {i : Nat} {x : α}
    (h : swapRemove l i = some (x, l2)) : l[i]? = some x := by
  unfold swapRemove at h
  rcases hx : l[i]? with _ | x0 <;> rw [hx] at h <;>
    rcases hz : l.getLast? with _ | z <;> rw [hz] at h <;> simp at h
  rw [h.1]

/-- With a well-formed universe, `retry_match` on a displaced applicant that
still has a partner can never succeed: the roster search compares the
partner field against the applicant's own partner id, which (partnering
being mutual and ids unique) only the displaced applicant itself carries,
and the subsequent assertion panics. -/
theorem retryMatch_coupled_no_ok {U : List Applicant} (hU : GoodU U)
    {fuel : Nat} {st st2 : MState} {w : Applicant} {c : Nat}
    (hwc : w.couple = some c)
    (hb : footprint st + {w} ≤ (U : Multiset Applicant)) :
    retryMatch fuel st w ≠ .ok st2 := by
  have hwU : w ∈ U := by
    have : w ∈ footprint st + {w} := by simp
    simpa using Multiset.mem_of_le hb this
  cases fuel with
  | zero => simp [retryMatch]
  | succ n =>
    intro h
    simp only [retryMatch, hwc] at h
    split at h
    · simp at h
    · rename_i j hj
      obtain ⟨hlt, hpred, _⟩ := List.findIdx?_eq_some_iff_getElem.1 hj
      simp only [List.any_eq_true, beq_iff_eq] at hpred
      obtain ⟨x, hxmem, hxc⟩ := hpred
      have hxfp : x ∈ footprint st :=
        mem_footprint_of_roster (List.getElem_mem hlt) hxmem
      have hxU : x ∈ U := mem_U_of_footprint hb hxfp
      have hxw : x = w := goodU_partner_unique hU hxU hwU hxc hwc
      subst hxw
      exact not_mem_footprint (goodU_nodup hU) hb hxfp
theorem roster_unmatched_disjoint {st : MState}
    (hnd : (footprint st).Nodup) {x : Applicant}
    (hr : rosterHas st x) (hu : x ∈ st.unmatched_a) : False := by
  obtain ⟨m, hm, hx⟩ := hr
  have h1 : x ∈ rosterMems st.«matches» := mem_rosterMems hm hx
  have h2 : x ∈ (st.unmatched_a : Multiset Applicant) := Multiset.mem_coe.2 hu
  have := Multiset.nodup_add.1 (by simpa [footprint] using hnd)
  exact Multiset.disjoint_left.1 this.2.2 h1 h2

/-- One matcher mutation step preserves `PlacedInv`: the state keeps the
unmatched pool, removes exactly the applicants in `RL` from rosters, adds
exactly those in `NEW`, every removed coupled applicant has its partner id
removed too, and every added applicant gets a correctly placed partner. -/
theorem placedInv_step {U : List Applicant} (hU : GoodU U) {st st1 : MState}
    (RL NEW : List Applicant) (hpl : PlacedInv st)
    (hum : st1.unmatched_a = st.unmatched_a)
    (hupg : ∀ p x, x ∉ RL → InRosterOf st p x → InRosterOf st1 p x)
    (heq : footprint st1 + (RL : Multiset Applicant) =
      footprint st + (NEW : Multiset Applicant))
    (hble : footprint st + (NEW : Multiset Applicant) ≤ (U : Multiset Applicant))
    (hRLU : ∀ z ∈ RL, z ∈ U)
    (hRLpart : ∀ z ∈ RL, ∀ c2, z.couple = some c2 → ∃ z2 ∈ RL, z2.id = c2)
    (hNEW : ∀ x ∈ NEW, ∀ c, x.couple = some c →
        ∃ y, y.id = c ∧ y.couple = some x.id ∧ SameK st1 x y) :
    PlacedInv st1 := by
  have hnd1 : (footprint st1 + (RL : Multiset Applicant)).Nodup := by
    rw [heq]
    exact Multiset.nodup_of_le hble (by simpa using goodU_nodup hU)
  have hnds := Multiset.nodup_add.1 hnd1
  intro m hm x hx c hc
  have hxfp1 : x ∈ footprint st1 := mem_footprint_of_roster hm hx
  have hxnotRL : x ∉ RL := fun hxRL =>
    Multiset.disjoint_left.1 hnds.2.2 hxfp1 (Multiset.mem_coe.2 hxRL)
  have hxU : x ∈ U := by
    have : x ∈ footprint st1 + (RL : Multiset Applicant) := Multiset.mem_add.2 (.inl hxfp1)
    rw [heq] at this
    simpa using Multiset.mem_of_le hble this
  have hxold : x ∈ footprint st ∨ x ∈ NEW := by
    have : x ∈ footprint st1 + (RL : Multiset Applicant) := Multiset.mem_add.2 (.inl hxfp1)
    rw [heq] at this
    rcases Multiset.mem_add.1 this with h | h
    · exact .inl h
    · exact .inr (Multiset.mem_coe.1 h)
  rcases hxold with hxst | hxnew
  · rcases footprint_cases hxst with hro | hun
    · obtain ⟨m0, hm0, hx0⟩ := hro
      obtain ⟨y, hyid, hyc, hSK⟩ := hpl m0 hm0 x hx0 c hc
      have hynotRL : y ∉ RL := by
        intro hyRL
        obtain ⟨z2, hz2RL, hz2id⟩ := hRLpart y hyRL x.id hyc
        have hz2x : z2 = x := goodU_idInj hU z2 (hRLU z2 hz2RL) x hxU hz2id
        exact hxnotRL (hz2x ▸ hz2RL)
      obtain ⟨k, p, q, h1, h2, h3, h4⟩ := hSK
      exact ⟨y, hyid, hyc, k, p, q, h1, h2, hupg p x hxnotRL h3, hupg q y hynotRL h4⟩
    · exfalso
      have hun1 : x ∈ st1.unmatched_a := by rw [hum]; exact hun
      exact roster_unmatched_disjoint hnds.1 ⟨m, hm, hx⟩ hun1
  · exact hNEW x hxnew c hc

theorem unmatchedInv_keep {st st1 : MState} (hum : st1.unmatched_a = st.unmatched_a)
    (h : UnmatchedInv st) : UnmatchedInv st1 := by
  intro x hx c hc
  rw [hum] at hx
  obtain ⟨y, hy, hyid, hyc⟩ := h x hx c hc
  exact ⟨y, by rw [hum]; exact hy, hyid, hyc⟩

theorem matcherInv_unmatched_one {st : MState} {a : Applicant}
    (ha : a.couple = none) (hinv : MatcherInv st) :
    MatcherInv { st with unmatched_a := st.unmatched_a ++ [a] } := by
  constructor
  · intro m hm x hx c hc
    obtain ⟨y, hyid, hyc, hSK⟩ := hinv.1 m hm x hx c hc
    exact ⟨y, hyid, hyc, hSK⟩
  · intro x hx c hc
    rcases List.mem_append.1 hx with hx2 | hx2
    · obtain ⟨y, hy, hyid, hyc⟩ := hinv.2 x hx2 c hc
      exact ⟨y, List.mem_append_left _ hy, hyid, hyc⟩
    · have : x = a := by simpa using hx2
      subst this
      rw [ha] at hc
      simp at hc

theorem matcherInv_unmatched_two {st : MState} {a b : Applicant}
    (hab : a.couple = some b.id) (hba : b.couple = some a.id)
    (hinv : MatcherInv st) :
    MatcherInv { st with unmatched_a := st.unmatched_a ++ [a, b] } := by
  constructor
  · intro m hm x hx c hc
    obtain ⟨y, hyid, hyc, hSK⟩ := hinv.1 m hm x hx c hc
    exact ⟨y, hyid, hyc, hSK⟩
  · intro x hx c hc
    rcases List.mem_append.1 hx with hx2 | hx2
    · obtain ⟨y, hy, hyid, hyc⟩ := hinv.2 x hx2 c hc
      exact ⟨y, List.mem_append_left _ hy, hyid, hyc⟩
    · rcases List.mem_cons.1 hx2 with rfl | hx3
      · refine ⟨b, List.mem_append_right _ (by simp), ?_, ?_⟩
        · rw [hab] at hc
          exact Option.some_inj.1 hc
        · exact hba
      · have : x = b := by simpa using hx3
        subst this
        refine ⟨a, List.mem_append_right _ (by simp), ?_, ?_⟩
        · rw [hba] at hc
          exact Option.some_inj.1 hc
        · exact hab
theorem roster_le_rosterMems {ms : List (Program × List Applicant)}
    {m : Program × List Applicant} (hm : m ∈ ms) :
    (m.2 : Multiset Applicant) ≤ rosterMems ms := by
  induction ms with
  | nil => simp at hm
  | cons m0 ms ih =>
    rcases List.mem_cons.1 hm with rfl | hm2
    · exact Multiset.le_add_right _ _
    · simp only [rosterMems]
      exact le_trans (ih hm2) (Multiset.le_add_left _ _)

theorem roster_le_footprint {st : MState} {m : Program × List Applicant}
    (hm : m ∈ st.«matches») : (m.2 : Multiset Applicant) ≤ footprint st :=
  le_trans (roster_le_rosterMems hm) (Multiset.le_add_right _ _)

theorem le_part {x S T z : Multiset Applicant} (h : x + S = z) (hT : T ≤ S) :
    x + T ≤ z := by
  rw [← h]
  exact add_le_add_left hT x

theorem coe_three (a b c : Applicant) :
    (([a, b, c] : List Applicant) : Multiset Applicant) = {a} + {b} + {c} := by
  rw [show [a, b, c] = [a] ++ [b] ++ [c] by simp, coe_append_m, coe_append_m]
  simp

theorem fp_calc1 {x y z r s t : Multiset Applicant}
    (h1 : x + s = y) (h2 : y + r + t = z) : x + r + s + t = z := by
  rw [← h2, ← h1]; abel

theorem fp_calc2 {x y z u v e : Multiset Applicant}
    (h1 : x + e = y) (h2 : y + u + v = z) : x + (u + v + e) = z := by
  rw [← h2, ← h1]; abel
theorem findIdx?_id_pred {l : List Applicant} {i : Nat} {x : Applicant} {c : Nat}
    (hidx : l.findIdx? (fun z => z.id == c) = some i)
    (hget : l[i]? = some x) : x.id = c := by
  obtain ⟨hlt, hpred, _⟩ := List.findIdx?_eq_some_iff_getElem.1 hidx
  obtain ⟨h2, h3⟩ := List.getElem?_eq_some.1 hget
  rw [← h3]
  simpa using hpred

theorem coe_one (a : Applicant) :
    (([a] : List Applicant) : Multiset Applicant) = {a} := by simp

theorem coe_two (a b : Applicant) :
    (([a, b] : List Applicant) : Multiset Applicant) = {a} + {b} := by
  rw [show [a, b] = [a] ++ [b] by simp, coe_append_m]
  simp

theorem add_pair_rot {x y z u v : Multiset Applicant}
    (h1 : x + v = y) (h2 : y + u = z) : x + (u + v) = z := by
  rw [← h2, ← h1]; abel

theorem swapRemove_mem_cases {α : Type} {l l2 : List α} {i : Nat} {x z : α}
    (h : swapRemove l i = some (x, l2)) (hz : z ∈ l) : z = x ∨ z ∈ l2 := by
  have hzm : z ∈ (l : Multiset α) := Multiset.mem_coe.2 hz
  rw [swapRemove_multiset h] at hzm
  rcases Multiset.mem_cons.1 hzm with h1 | h1
  · exact .inl h1
  · exact .inr (Multiset.mem_coe.1 h1)

theorem swapRemove_mem_of_ne {α : Type} {l l2 : List α} {i : Nat} {x z : α}
    (h : swapRemove l i = some (x, l2)) (hz : z ∈ l) (hne : z ≠ x) : z ∈ l2 :=
  (swapRemove_mem_cases h hz).resolve_left hne

theorem swap_last {y r t z : Multiset Applicant} (h : y + r + t = z) :
    y + t + r = z := by
  rw [← h]; abel

theorem le_U_of_chain {x y z u e r t : Multiset Applicant}
    (h1 : x + e = y) (h2 : y + r + t = z) (hz : z ≤ u) : x + r ≤ u := by
  refine le_trans (le_trans (Multiset.le_add_right _ (e + t)) (le_of_eq ?_)) hz
  rw [← h2, ← h1]; abel

theorem le_U_of_chain2 {y z u r t : Multiset Applicant}
    (h2 : y + r + t = z) (hz : z ≤ u) : y + r ≤ u := by
  refine le_trans (le_trans (Multiset.le_add_right _ t) (le_of_eq ?_)) hz
  exact h2

theorem le_U_of_chain3 {x y z u e r t : Multiset Applicant}
    (h1 : x + e = y) (h2 : y + r + t = z) (hz : z ≤ u) : x + r + e ≤ u := by
  refine le_trans (le_trans (Multiset.le_add_right _ t) (le_of_eq ?_)) hz
  rw [← h2, ← h1]; abel

theorem le_U_full {x y z u e r t : Multiset Applicant}
    (h1 : x + e = y) (h2 : y + r + t = z) (hz : z ≤ u) : x + r + t + e ≤ u := by
  refine le_trans (le_of_eq ?_) hz
  rw [← h2, ← h1]; abel

theorem le_U_full2 {x y z u e r t : Multiset Applicant}
    (h1 : x + e = y) (h2 : y + r + t = z) (hz : z ≤ u) : x + r + e + t ≤ u := by
  refine le_trans (le_of_eq ?_) hz
  rw [← h2, ← h1]; abel

theorem not_mem_fp_left {U : List Applicant} {st : MState} {a b : Applicant}
    (hnd : U.Nodup) (hb : footprint st + {a} + {b} ≤ (U : Multiset Applicant)) :
    a ∉ footprint st :=
  not_mem_footprint hnd (le_trans (Multiset.le_add_right _ _) hb)

theorem not_mem_fp_right {U : List Applicant} {st : MState} {a b : Applicant}
    (hnd : U.Nodup) (hb : footprint st + {a} + {b} ≤ (U : Multiset Applicant)) :
    b ∉ footprint st := by
  refine not_mem_footprint hnd (le_trans (le_trans (Multiset.le_add_right _ {a})
    (le_of_eq ?_)) hb)
  abel

theorem partner_resolve {U : List Applicant} (hU : GoodU U) {w x : Applicant} {c : Nat}
    (hwU : w ∈ U) (hxU : x ∈ U) (hwc : w.couple = some c) (hxid : x.id = c) :
    x.couple = some w.id ∧ w.couple = some x.id := by
  obtain ⟨z, hzU, hzid, hzc⟩ := hU.2 w hwU c hwc
  have hzx : x = z := goodU_idInj hU x hxU z hzU (by rw [hxid, hzid])
  constructor
  · rw [hzx]; exact hzc
  · rw [hwc, hxid]

theorem displaced_partner_ne {U : List Applicant} (hU : GoodU U) {st : MState}
    {a b w x : Applicant}
    (hb : footprint st + {a} + {b} ≤ (U : Multiset Applicant))
    (hab : a.couple = some b.id) (hba : b.couple = some a.id)
    (hwfp : w ∈ footprint st) (hx : x.couple = some w.id) :
    x ≠ a ∧ x ≠ b := by
  have hbA : footprint st + ({a} + {b}) ≤ (U : Multiset Applicant) := by
    rw [← add_assoc]; exact hb
  have hwU : w ∈ U := mem_U_of_footprint hbA hwfp
  have haU : a ∈ U := by
    have hm : a ∈ footprint st + {a} + {b} := by simp
    simpa using Multiset.mem_of_le hb hm
  have hbU2 : b ∈ U := by
    have hm : b ∈ footprint st + {a} + {b} := by simp
    simpa using Multiset.mem_of_le hb hm
  constructor
  · intro heq
    subst heq
    rw [hab] at hx
    have hid : b.id = w.id := Option.some_inj.1 hx
    have hbw : b = w := goodU_idInj hU b hbU2 w hwU hid
    have hbfp : b ∈ footprint st := by rw [hbw]; exact hwfp
    exact not_mem_fp_right (goodU_nodup hU) hb hbfp
  · intro heq
    subst heq
    rw [hba] at hx
    have hid : a.id = w.id := Option.some_inj.1 hx
    have haw : a = w := goodU_idInj hU a haU w hwU hid
    have hafp : a ∈ footprint st := by rw [haw]; exact hwfp
    exact not_mem_fp_left (goodU_nodup hU) hb hafp

theorem hNEW_pair {st1 : MState} {a b : Applicant} {k pid0 pid1 : Nat}
    (hab : a.couple = some b.id) (hba : b.couple = some a.id)
    (hk0 : a.ranking[k]? = some pid0) (hk1 : b.ranking[k]? = some pid1)
    (hia : InRosterOf st1 pid0 a) (hib : InRosterOf st1 pid1 b) :
    ∀ x ∈ [a, b], ∀ c, x.couple = some c →
      ∃ y, y.id = c ∧ y.couple = some x.id ∧ SameK st1 x y := by
  intro x hx c hc
  rcases List.mem_cons.1 hx with rfl | hx2
  · rw [hab] at hc
    exact ⟨b, Option.some_inj.1 hc, hba, k, pid0, pid1, hk0, hk1, hia, hib⟩
  · have hxb : x = b := by simpa using hx2
    subst hxb
    rw [hba] at hc
    exact ⟨a, Option.some_inj.1 hc, hab, k, pid1, pid0, hk1, hk0, hib, hia⟩

theorem heq_zero2 {st1 st : MState} {a b : Applicant}
    (hkey : footprint st1 = footprint st + {a} + {b}) :
    footprint st1 + (([] : List Applicant) : Multiset Applicant) =
      footprint st + (([a, b] : List Applicant) : Multiset Applicant) := by
  rw [coe_two a b, ← add_assoc]
  simpa using hkey

theorem heq_one2 {st1 st : MState} {w a b : Applicant}
    (hkey : footprint st1 + {w} = footprint st + {a} + {b}) :
    footprint st1 + (([w] : List Applicant) : Multiset Applicant) =
      footprint st + (([a, b] : List Applicant) : Multiset Applicant) := by
  rw [coe_two a b, ← add_assoc, coe_one w]
  exact hkey

theorem heq_two {st1 st : MState} {w0 w1 a b : Applicant}
    (hkey : footprint st1 + {w0} + {w1} = footprint st + {a} + {b}) :
    footprint st1 + (([w0, w1] : List Applicant) : Multiset Applicant) =
      footprint st + (([a, b] : List Applicant) : Multiset Applicant) := by
  rw [coe_two a b, ← add_assoc, coe_two w0 w1, ← add_assoc]
  exact hkey

theorem heq_two_pull {st4 st1 st : MState} {w wc a b : Applicant}
    (hpull : footprint st4 + {wc} = footprint st1)
    (hkey : footprint st1 + {w} = footprint st + {a} + {b}) :
    footprint st4 + (([w, wc] : List Applicant) : Multiset Applicant) =
      footprint st + (([a, b] : List Applicant) : Multiset Applicant) := by
  rw [coe_two a b, ← add_assoc, coe_two w wc]
  exact add_pair_rot hpull hkey

theorem heq_three2 {st4 st1 st : MState} {w0 w1 e a b : Applicant}
    (hpull : footprint st4 + {e} = footprint st1)
    (hkey : footprint st1 + {w0} + {w1} = footprint st + {a} + {b}) :
    footprint st4 + (([w0, w1, e] : List Applicant) : Multiset Applicant) =
      footprint st + (([a, b] : List Applicant) : Multiset Applicant) := by
  rw [coe_two a b, ← add_assoc, coe_three w0 w1 e]
  exact fp_calc2 hpull hkey

theorem hble_two {st : MState} {a b : Applicant} {U : List Applicant}
    (hb : footprint st + {a} + {b} ≤ (U : Multiset Applicant)) :
    footprint st + (([a, b] : List Applicant) : Multiset Applicant) ≤
      (U : Multiset Applicant) := by
  rw [coe_two a b, ← add_assoc]
  exact hb
theorem matcherInv_all {U : List Applicant} (hU : GoodU U) :
    ∀ fuel : Nat,
      (∀ st a st2, footprint st + {a} ≤ (U : Multiset Applicant) →
        a.couple = none → MatcherInv st →
        attemptSingleMatch fuel st a = .ok st2 → MatcherInv st2) ∧
      (∀ st a l st2, footprint st + {a} ≤ (U : Multiset Applicant) →
        a.couple = none → MatcherInv st →
        singleGo fuel st a l = .ok st2 → MatcherInv st2) ∧
      (∀ st a ob st2, footprint st + {a} + optMass ob ≤ (U : Multiset Applicant) →
        (ob = none → a.couple = none) →
        (∀ b2, ob = some b2 → a.couple = some b2.id ∧ b2.couple = some a.id) →
        MatcherInv st → attemptCouplesMatch fuel st a ob = .ok st2 → MatcherInv st2) ∧
      (∀ st a b l st2, footprint st + {a} + {b} ≤ (U : Multiset Applicant) →
        a.couple = some b.id → b.couple = some a.id →
        (∀ pr ∈ l, ∃ k : Nat, a.ranking[k]? = some pr.1 ∧ b.ranking[k]? = some pr.2) →
        MatcherInv st → couplesGo fuel st a b l = .ok st2 → MatcherInv st2) ∧
      (∀ st w st2, footprint st + {w} ≤ (U : Multiset Applicant) → MatcherInv st →
        retryMatch fuel st w = .ok st2 → MatcherInv st2) := by
  intro fuel
  induction fuel with
  | zero =>
    refine ⟨?_, ?_, ?_, ?_, ?_⟩ <;> intro st a
    · intro st2 _ _ _ h; simp [attemptSingleMatch] at h
    · intro l st2 _ _ _ h; simp [singleGo] at h
    · intro ob st2 _ _ _ _ h; simp [attemptCouplesMatch] at h
    · intro b l st2 _ _ _ _ _ h; simp [couplesGo] at h
    · intro st2 _ _ h; simp [retryMatch] at h
  | succ n ih =>
    obtain ⟨ihS, ihG, ihC, ihCG, ihR⟩ := ih
    refine ⟨?_, ?_, ?_, ?_, ?_⟩
    · -- attemptSingleMatch
      intro st a st2 hb ha hinv h
      simp only [attemptSingleMatch] at h
      split at h
      · simp at h
      · exact ihG _ _ _ _ hb ha hinv h
    · -- singleGo
      intro st a l st2 hb ha hinv h
      match l with
      | [] =>
        simp only [singleGo] at h
        obtain rfl : _ = st2 := by injection h
        exact matcherInv_unmatched_one ha hinv
      | pid :: rest =>
        simp only [singleGo] at h
        split at h
        · simp at h
        rename_i P roster hfp
        split at h
        · exact ihG _ _ _ _ hb ha hinv h
        rename_i aRank hpos
        split at h
        · exact ihG _ _ _ _ hb ha hinv h
        rename_i hcap0
        split at h
        · -- free push
          split at h
          · rename_i hlen
            obtain rfl : _ = st2 := by injection h
            constructor
            · refine placedInv_step hU [] [a] hinv.1 rfl ?_ ?_ ?_ ?_ ?_ ?_
              · intro p x _ hr
                exact inroster_upgrade [] hfp
                  (fun z hz _ => List.mem_append_left _ hz) (by simp) hr
              · rw [coe_one]
                have := fp_push a hfp
                simp only [this]
                simp
              · rw [coe_one]; exact hb
              · simp
              · simp
              · intro x hx c hc
                have : x = a := by simpa using hx
                subst this
                rw [ha] at hc
                simp at hc
            · exact unmatchedInv_keep rfl hinv.2
          · simp at h
        · -- full: displacement
          split at h
          · simp at h
          rename_i rm hrm
          split at h
          · simp at h
          rename_i wIdx wRank hmax
          split at h
          · split at h
            · simp at h
            rename_i w ros1 hsw
            split at h
            · rename_i hlen
              have hkey := fp_swap_push a hfp hsw
              have hb1 : footprint (setRoster st pid (ros1 ++ [a])) + {w} ≤
                  (U : Multiset Applicant) := by rw [hkey]; exact hb
              have hwmem : w ∈ roster := swapRemove_mem_self hsw
              have hwfp : w ∈ footprint st :=
                mem_footprint_of_roster (findProg_mem hfp) hwmem
              have hwU : w ∈ U := mem_U_of_footprint hb hwfp
              have hsub1 : ∀ z ∈ roster, z ∉ [w] → z ∈ ros1 ++ [a] := by
                intro z hz hzw
                have hzm : z ∈ (roster : Multiset Applicant) := Multiset.mem_coe.2 hz
                rw [swapRemove_multiset hsw] at hzm
                rcases Multiset.mem_cons.1 hzm with rfl | hzm2
                · exact absurd (List.mem_singleton.2 rfl) hzw
                · exact List.mem_append_left _ (Multiset.mem_coe.1 hzm2)
              split at h
              · -- w single: retry
                rename_i hcw
                have hinv1 : MatcherInv (setRoster st pid (ros1 ++ [a])) := by
                  constructor
                  · refine placedInv_step hU [w] [a] hinv.1 rfl ?_ ?_ ?_ ?_ ?_ ?_
                    · intro p x hx hr
                      exact inroster_upgrade [w] hfp hsub1 hx hr
                    · rw [coe_one, coe_one]; exact hkey
                    · rw [coe_one]; exact hb
                    · intro z hz
                      have : z = w := by simpa using hz
                      subst this; exact hwU
                    · intro z hz c2 hc2
                      have : z = w := by simpa using hz
                      subst this
                      rw [hcw] at hc2; simp at hc2
                    · intro x hx c hc
                      have : x = a := by simpa using hx
                      subst this
                      rw [ha] at hc; simp at hc
                  · exact unmatchedInv_keep rfl hinv.2
                exact ihR _ _ _ hb1 hinv1 h
              · -- w coupled
                rename_i c hcw
                split at h
                · rename_i i hidx
                  split at h
                  · simp at h
                  rename_i wc ros3 hsw2
                  have hfp1 : findProg (setRoster st pid (ros1 ++ [a])).«matches» pid =
                      some (P, ros1 ++ [a]) :=
                    modifyFirstRoster_findProg_same _ hfp
                  have hwcid : wc.id = c :=
                    findIdx?_id_pred hidx (swapRemove_getElem hsw2)
                  have hwcmem : wc ∈ ros1 ++ [a] := swapRemove_mem_self hsw2
                  have hwcfp : wc ∈ footprint (setRoster st pid (ros1 ++ [a])) :=
                    mem_footprint_of_roster (findProg_mem hfp1) hwcmem
                  have hwcU : wc ∈ U := mem_U_of_footprint hb1 hwcfp
                  obtain ⟨z, hzU, hzid, hzc⟩ := hU.2 w hwU c hcw
                  have hwcz : wc = z := goodU_idInj hU wc hwcU z hzU (by rw [hwcid, hzid])
                  have hwc_couple : wc.couple = some w.id := by rw [hwcz]; exact hzc
                  have hwca : wc ≠ a := by
                    intro heq
                    rw [heq, ha] at hwc_couple
                    simp at hwc_couple
                  have hpull := fp_pull hfp1 hsw2
                  have heq2 := add_pair_rot hpull hkey
                  have hsub2 : ∀ z ∈ ros1 ++ [a], z ∉ [wc] → z ∈ ros3 := by
                    intro z hz hzw
                    have hzm : z ∈ ((ros1 ++ [a] : List Applicant) : Multiset Applicant) :=
                      Multiset.mem_coe.2 hz
                    rw [swapRemove_multiset hsw2] at hzm
                    rcases Multiset.mem_cons.1 hzm with rfl | hzm2
                    · exact absurd (List.mem_singleton.2 rfl) hzw
                    · exact Multiset.mem_coe.1 hzm2
                  have hinv2 : MatcherInv (setRoster (setRoster st pid (ros1 ++ [a])) pid ros3) := by
                    constructor
                    · refine placedInv_step hU [w, wc] [a] hinv.1 rfl ?_ ?_ ?_ ?_ ?_ ?_
                      · intro p x hx hr
                        have hx' : x ≠ w ∧ x ≠ wc := by simpa using hx
                        exact inroster_upgrade [wc] hfp1 hsub2 (by simpa using hx'.2)
                          (inroster_upgrade [w] hfp hsub1 (by simpa using hx'.1) hr)
                      · rw [coe_two, coe_one]
                        exact heq2
                      · rw [coe_one]; exact hb
                      · intro z hz
                        rcases List.mem_cons.1 hz with rfl | hz2
                        · exact hwU
                        · have : z = wc := by simpa using hz2
                          subst this; exact hwcU
                      · intro z hz c2 hc2
                        rcases List.mem_cons.1 hz with rfl | hz2
                        · rw [hcw] at hc2
                          refine ⟨wc, by simp, ?_⟩
                          rw [hwcid]
                          exact Option.some_inj.1 hc2
                        · have : z = wc := by simpa using hz2
                          subst this
                          rw [hwc_couple] at hc2
                          exact ⟨w, by simp, Option.some_inj.1 hc2⟩
                      · intro x hx c2 hc2
                        have : x = a := by simpa using hx
                        subst this
                        rw [ha] at hc2; simp at hc2
                    · exact unmatchedInv_keep rfl hinv.2
                  have hbC : footprint (setRoster (setRoster st pid (ros1 ++ [a])) pid ros3) +
                      {w} + optMass (some wc) ≤ (U : Multiset Applicant) := by
                    simp only [optMass]
                    rw [add_assoc, add_comm ({w} : Multiset Applicant) {wc},
                      ← add_assoc]
                    rw [show footprint (setRoster (setRoster st pid (ros1 ++ [a])) pid ros3) +
                        {wc} + {w} = footprint (setRoster (setRoster st pid (ros1 ++ [a])) pid ros3) +
                        ({w} + {wc}) by abel, heq2]
                    exact hb
                  refine ihC _ _ _ _ hbC (by simp) ?_ hinv2 h
                  intro b2 hb2
                  obtain rfl : wc = b2 := by simpa using hb2
                  exact ⟨by rw [hcw, hwcid], hwc_couple⟩
                · rename_i hidx
                  exact absurd h (retryMatch_coupled_no_ok hU hcw hb1)
            · simp at h
          · exact ihG _ _ _ _ hb ha hinv h
    · -- attemptCouplesMatch
      intro st a ob st2 hb hnone hsome hinv h
      match ob with
      | none =>
        simp only [attemptCouplesMatch] at h
        exact ihS _ _ _ (by simpa [optMass] using hb) (hnone rfl) hinv h
      | some b =>
        simp only [attemptCouplesMatch] at h
        split at h
        · simp at h
        · obtain ⟨hab, hba⟩ := hsome b rfl
          refine ihCG _ _ _ _ _ (by simpa [optMass] using hb) hab hba ?_ hinv h
          intro pr hpr
          obtain ⟨k, hk⟩ := List.mem_iff_getElem?.1 hpr
          have hk2 := List.getElem?_zip_eq_some.1 hk
          exact ⟨k, hk2.1, hk2.2⟩
    · -- couplesGo
      intro st a b l st2 hb hab hba hpairs hinv h
      have hbA : footprint st + ({a} + {b}) ≤ (U : Multiset Applicant) := by
        rw [← add_assoc]; exact hb
      have hanotfp : a ∉ footprint st := not_mem_fp_left (goodU_nodup hU) hb
      have hbnotfp : b ∉ footprint st := not_mem_fp_right (goodU_nodup hU) hb
      match l with
      | [] =>
        simp only [couplesGo] at h
        obtain rfl : _ = st2 := by injection h
        exact matcherInv_unmatched_two hab hba hinv
      | (pid0, pid1) :: rest =>
        have hrest : ∀ pr ∈ rest, ∃ k : Nat,
            a.ranking[k]? = some pr.1 ∧ b.ranking[k]? = some pr.2 :=
          fun pr hpr => hpairs pr (List.mem_cons_of_mem _ hpr)
        obtain ⟨k, hk0, hk1⟩ := hpairs (pid0, pid1) (List.mem_cons_self _ _)
        simp only [couplesGo] at h
        split at h
        · simp at h
        rename_i P0 ros0 hfp0
        split at h
        · simp at h
        rename_i P1 ros1 hfp1
        split at h
        case _ rank0 rank1 hr0 hr1 =>
          split at h
          · exact ihCG _ _ _ _ _ hb hab hba hrest hinv h
          rename_i hcaps
          split at h
          · simp at h
          rename_i r0m hr0m
          split at h
          case isTrue hsame =>
            have hpp : pid0 = pid1 := by simpa using hsame
            split at h
            case _ havail =>
              -- available == 0: two members displaced
              split at h
              · simp at h
              rename_i wi0 wr0 r0tail hsorted
              split at h
              case isFalse => exact ihCG _ _ _ _ _ hb hab hba hrest hinv h
              case isTrue hlt0 =>
              split at h
              · simp at h
              rename_i wi1 wr1 rtail2 htail
              split at h
              case isFalse => exact ihCG _ _ _ _ _ hb hab hba hrest hinv h
              case isTrue hlt1 =>
              split at h
              · simp at h
              rename_i w0 s1 hsw0
              split at h
              · simp at h
              rename_i w1 s2 hsw1
              split at h
              case isFalse => simp at h
              case isTrue hlen =>
              have hkey := fp_swap2_push2 (P := P0) a b hfp0 hsw0 hsw1
              have hw0fp : w0 ∈ footprint st :=
                mem_footprint_of_roster (findProg_mem hfp0) (swapRemove_mem_self hsw0)
              have hw1fp : w1 ∈ footprint st :=
                mem_footprint_of_roster (findProg_mem hfp0)
                  (swapRemove_mem hsw0 (swapRemove_mem_self hsw1))
              have hw0U : w0 ∈ U := mem_U_of_footprint hbA hw0fp
              have hw1U : w1 ∈ U := mem_U_of_footprint hbA hw1fp
              have hsub1 : ∀ z ∈ ros0, z ∉ [w0, w1] → z ∈ s2 ++ [a, b] := by
                intro z hz hzw
                have hz' : z ≠ w0 ∧ z ≠ w1 := by simpa using hzw
                rcases swapRemove_mem_cases hsw0 hz with rfl | h2
                · exact absurd rfl hz'.1
                · rcases swapRemove_mem_cases hsw1 h2 with rfl | h3
                  · exact absurd rfl hz'.2
                  · exact List.mem_append_left _ h3
              have hfpx : findProg (setRoster st pid0 (s2 ++ [a, b])).«matches» pid0 =
                  some (P0, s2 ++ [a, b]) :=
                modifyFirstRoster_findProg_same _ hfp0
              have hb1A : footprint (setRoster st pid0 (s2 ++ [a, b])) + ({w0} + {w1}) ≤
                  (U : Multiset Applicant) := by
                refine le_trans (le_of_eq ?_) hb
                rw [← hkey]; abel
              split at h
              case _ c hc =>
                -- w0 coupled
                split at h
                case isTrue heqc =>
                  -- its partner is exactly the other displaced member w1
                  have heqc' : w0.couple = some w1.id := by simpa using heqc
                  have hpr := partner_resolve hU hw0U hw1U heqc' rfl
                  have hinv1 : MatcherInv (setRoster st pid0 (s2 ++ [a, b])) := by
                    refine ⟨?_, unmatchedInv_keep rfl hinv.2⟩
                    refine placedInv_step hU [w0, w1] [a, b] hinv.1 rfl ?_
                        (heq_two hkey) (hble_two hb) ?_ ?_ ?_
                    · intro p x hx hr
                      exact inroster_upgrade [w0, w1] hfp0 hsub1 hx hr
                    · intro z hz
                      rcases List.mem_cons.1 hz with rfl | hz2
                      · exact hw0U
                      · have hzw1 : z = w1 := by simpa using hz2
                        subst hzw1; exact hw1U
                    · intro z hz c2 hc2
                      rcases List.mem_cons.1 hz with rfl | hz2
                      · rw [heqc'] at hc2
                        exact ⟨w1, by simp, Option.some_inj.1 hc2⟩
                      · have hzw1 : z = w1 := by simpa using hz2
                        subst hzw1
                        rw [hpr.1] at hc2
                        exact ⟨w0, by simp, Option.some_inj.1 hc2⟩
                    · refine hNEW_pair hab hba hk0 hk1 (inroster_new hfp0 (by simp)) ?_
                      rw [← hpp]
                      exact inroster_new hfp0 (by simp)
                  have hbC : footprint (setRoster st pid0 (s2 ++ [a, b])) + {w0} +
                      optMass (some w1) ≤ (U : Multiset Applicant) := by
                    simp only [optMass]
                    rw [hkey]; exact hb
                  refine ihC _ _ _ _ hbC (by simp) ?_ hinv1 h
                  intro b2 hb2
                  obtain rfl : w1 = b2 := by simpa using hb2
                  exact ⟨hpr.2, hpr.1⟩
                case isFalse heqc =>
                split at h
                case _ i hidx =>
                  -- w0's partner found in the rewritten roster
                  split at h
                  · simp at h
                  rename_i extra s4 hswx
                  rw [bind_eq_ok] at h
                  obtain ⟨stm, h1, h2⟩ := h
                  have hxid : extra.id = c :=
                    findIdx?_id_pred hidx (swapRemove_getElem hswx)
                  have hxfp1 : extra ∈ footprint (setRoster st pid0 (s2 ++ [a, b])) :=
                    mem_footprint_of_roster (findProg_mem hfpx) (swapRemove_mem_self hswx)
                  have hxU : extra ∈ U := mem_U_of_footprint hb1A hxfp1
                  have hpr := partner_resolve hU hw0U hxU hc hxid
                  have hpull := fp_pull hfpx hswx
                  have em := (footprint_adds n).2.2.1 _ _ _ _ h1
                  simp only [optMass] at em
                  rcases hc1 : w1.couple with _ | c1
                  · -- w1 single: full invariant chain
                    have hnea := displaced_partner_ne hU hb hab hba hw0fp hpr.1
                    have hsub2 : ∀ z ∈ s2 ++ [a, b], z ∉ [extra] → z ∈ s4 := by
                      intro z hz hzw
                      exact swapRemove_mem_of_ne hswx hz (by simpa using hzw)
                    have has4 : a ∈ s4 :=
                      swapRemove_mem_of_ne hswx (by simp) (Ne.symm hnea.1)
                    have hbs4 : b ∈ s4 :=
                      swapRemove_mem_of_ne hswx (by simp) (Ne.symm hnea.2)
                    have hinv4 : MatcherInv
                        (setRoster (setRoster st pid0 (s2 ++ [a, b])) pid0 s4) := by
                      refine ⟨?_, unmatchedInv_keep rfl hinv.2⟩
                      refine placedInv_step hU [w0, w1, extra] [a, b] hinv.1 rfl ?_
                          (heq_three2 hpull hkey) (hble_two hb) ?_ ?_ ?_
                      · intro p x hx hr
                        have hx' : x ≠ w0 ∧ x ≠ w1 ∧ x ≠ extra := by simpa using hx
                        exact inroster_upgrade [extra] hfpx hsub2 (by simpa using hx'.2.2)
                          (inroster_upgrade [w0, w1] hfp0 hsub1
                            (by simp [hx'.1, hx'.2.1]) hr)
                      · intro z hz
                        rcases List.mem_cons.1 hz with rfl | hz2
                        · exact hw0U
                        · rcases List.mem_cons.1 hz2 with rfl | hz3
                          · exact hw1U
                          · have hzx : z = extra := by simpa using hz3
                            subst hzx; exact hxU
                      · intro z hz c2 hc2
                        rcases List.mem_cons.1 hz with rfl | hz2
                        · rw [hc] at hc2
                          exact ⟨extra, by simp, by
                            rw [hxid]; exact Option.some_inj.1 hc2⟩
                        · rcases List.mem_cons.1 hz2 with rfl | hz3
                          · rw [hc1] at hc2; simp at hc2
                          · have hzx : z = extra := by simpa using hz3
                            subst hzx
                            rw [hpr.1] at hc2
                            exact ⟨w0, by simp, Option.some_inj.1 hc2⟩
                      · refine hNEW_pair hab hba hk0 hk1 (inroster_new hfpx has4) ?_
                        rw [← hpp]
                        exact inroster_new hfpx hbs4
                    have hb4 : footprint (setRoster (setRoster st pid0 (s2 ++ [a, b]))
                        pid0 s4) + {w0} + optMass (some extra) ≤
                        (U : Multiset Applicant) := by
                      simp only [optMass]
                      exact le_U_of_chain3 hpull hkey hb
                    have hinvm : MatcherInv stm := by
                      refine ihC _ _ _ _ hb4 (by simp) ?_ hinv4 h1
                      intro b2 hb2
                      obtain rfl : extra = b2 := by simpa using hb2
                      exact ⟨hpr.2, hpr.1⟩
                    refine ihR _ _ _ ?_ hinvm h2
                    rw [em]
                    exact le_U_full2 hpull hkey hb
                  · -- w1 still coupled: its retry can never succeed
                    refine absurd h2 (retryMatch_coupled_no_ok hU hc1 ?_)
                    rw [em]
                    exact le_U_full2 hpull hkey hb
                case _ hidx =>
                  -- partner not found: the trailing retry of the coupled w0 cannot succeed
                  rw [bind_eq_ok] at h
                  obtain ⟨stm, h1, h2⟩ := h
                  have em := (footprint_adds n).2.2.2.2 _ _ _ h1
                  refine absurd h2 (retryMatch_coupled_no_ok hU hc ?_)
                  rw [em]
                  exact le_trans (le_of_eq (swap_last hkey)) hb
              case _ hc =>
                -- w0 single
                split at h
                case _ hc1 =>
                  -- w1 single as well: two plain retries
                  rw [bind_eq_ok] at h
                  obtain ⟨stm, h1, h2⟩ := h
                  have hinv1 : MatcherInv (setRoster st pid0 (s2 ++ [a, b])) := by
                    refine ⟨?_, unmatchedInv_keep rfl hinv.2⟩
                    refine placedInv_step hU [w0, w1] [a, b] hinv.1 rfl ?_
                        (heq_two hkey) (hble_two hb) ?_ ?_ ?_
                    · intro p x hx hr
                      exact inroster_upgrade [w0, w1] hfp0 hsub1 hx hr
                    · intro z hz
                      rcases List.mem_cons.1 hz with rfl | hz2
                      · exact hw0U
                      · have hzw1 : z = w1 := by simpa using hz2
                        subst hzw1; exact hw1U
                    · intro z hz c2 hc2
                      rcases List.mem_cons.1 hz with rfl | hz2
                      · rw [hc] at hc2; simp at hc2
                      · have hzw1 : z = w1 := by simpa using hz2
                        subst hzw1
                        rw [hc1] at hc2; simp at hc2
                    · refine hNEW_pair hab hba hk0 hk1 (inroster_new hfp0 (by simp)) ?_
                      rw [← hpp]
                      exact inroster_new hfp0 (by simp)
                  have hbw1 : footprint (setRoster st pid0 (s2 ++ [a, b])) + {w1} ≤
                      (U : Multiset Applicant) := le_U_of_chain2 (swap_last hkey) hb
                  have hinvm := ihR _ _ _ hbw1 hinv1 h1
                  have em := (footprint_adds n).2.2.2.2 _ _ _ h1
                  refine ihR _ _ _ ?_ hinvm h2
                  rw [em]
                  exact le_trans (le_of_eq (swap_last hkey)) hb
                case _ c1 hc1 =>
                  split at h
                  case _ i hidx =>
                    -- w1's partner found in the rewritten roster
                    split at h
                    · simp at h
                    rename_i extra s4 hswx
                    rw [bind_eq_ok] at h
                    obtain ⟨stm, h1, h2⟩ := h
                    have hxid : extra.id = c1 :=
                      findIdx?_id_pred hidx (swapRemove_getElem hswx)
                    have hxfp1 : extra ∈ footprint (setRoster st pid0 (s2 ++ [a, b])) :=
                      mem_footprint_of_roster (findProg_mem hfpx) (swapRemove_mem_self hswx)
                    have hxU : extra ∈ U := mem_U_of_footprint hb1A hxfp1
                    have hpr := partner_resolve hU hw1U hxU hc1 hxid
                    have hpull := fp_pull hfpx hswx
                    have hnea := displaced_partner_ne hU hb hab hba hw1fp hpr.1
                    have hsub2 : ∀ z ∈ s2 ++ [a, b], z ∉ [extra] → z ∈ s4 := by
                      intro z hz hzw
                      exact swapRemove_mem_of_ne hswx hz (by simpa using hzw)
                    have has4 : a ∈ s4 :=
                      swapRemove_mem_of_ne hswx (by simp) (Ne.symm hnea.1)
                    have hbs4 : b ∈ s4 :=
                      swapRemove_mem_of_ne hswx (by simp) (Ne.symm hnea.2)
                    have hinv4 : MatcherInv
                        (setRoster (setRoster st pid0 (s2 ++ [a, b])) pid0 s4) := by
                      refine ⟨?_, unmatchedInv_keep rfl hinv.2⟩
                      refine placedInv_step hU [w0, w1, extra] [a, b] hinv.1 rfl ?_
                          (heq_three2 hpull hkey) (hble_two hb) ?_ ?_ ?_
                      · intro p x hx hr
                        have hx' : x ≠ w0 ∧ x ≠ w1 ∧ x ≠ extra := by simpa using hx
                        exact inroster_upgrade [extra] hfpx hsub2 (by simpa using hx'.2.2)
                          (inroster_upgrade [w0, w1] hfp0 hsub1
                            (by simp [hx'.1, hx'.2.1]) hr)
                      · intro z hz
                        rcases List.mem_cons.1 hz with rfl | hz2
                        · exact hw0U
                        · rcases List.mem_cons.1 hz2 with rfl | hz3
                          · exact hw1U
                          · have hzx : z = extra := by simpa using hz3
                            subst hzx; exact hxU
                      · intro z hz c2 hc2
                        rcases List.mem_cons.1 hz with rfl | hz2
                        · rw [hc] at hc2; simp at hc2
                        · rcases List.mem_cons.1 hz2 with rfl | hz3
                          · rw [hc1] at hc2
                            exact ⟨extra, by simp, by
                              rw [hxid]; exact Option.some_inj.1 hc2⟩
                          · have hzx : z = extra := by simpa using hz3
                            subst hzx
                            rw [hpr.1] at hc2
                            exact ⟨w1, by simp, Option.some_inj.1 hc2⟩
                      · refine hNEW_pair hab hba hk0 hk1 (inroster_new hfpx has4) ?_
                        rw [← hpp]
                        exact inroster_new hfpx hbs4
                    have hb4 : footprint (setRoster (setRoster st pid0 (s2 ++ [a, b]))
                        pid0 s4) + {w0} ≤ (U : Multiset Applicant) :=
                      le_U_of_chain hpull hkey hb
                    have hinvm := ihR _ _ _ hb4 hinv4 h1
                    have em := (footprint_adds n).2.2.2.2 _ _ _ h1
                    have hbm : footprint stm + {w1} + optMass (some extra) ≤
                        (U : Multiset Applicant) := by
                      simp only [optMass]
                      rw [em]
                      exact le_U_full hpull hkey hb
                    refine ihC _ _ _ _ hbm (by simp) ?_ hinvm h2
                    intro b2 hb2
                    obtain rfl : extra = b2 := by simpa using hb2
                    exact ⟨hpr.2, hpr.1⟩
                  case _ hidx =>
                    -- w1 coupled, partner not found: its retry cannot succeed
                    rw [bind_eq_ok] at h
                    obtain ⟨stm, h1, h2⟩ := h
                    exact absurd h1 (retryMatch_coupled_no_ok hU hc1
                      (le_U_of_chain2 (swap_last hkey) hb))
            case _ havail =>
              -- available == 1: one member displaced
              split at h
              · simp at h
              rename_i wi wr rtail hsorted
              split at h
              case isFalse => exact ihCG _ _ _ _ _ hb hab hba hrest hinv h
              case isTrue hlt =>
              split at h
              · simp at h
              rename_i w s1 hsw
              split at h
              case isFalse => simp at h
              case isTrue hlen =>
              have hkey := fp_swap_push2 (P := P0) a b hfp0 hsw
              have hsub1 : ∀ z ∈ ros0, z ∉ [w] → z ∈ s1 ++ [a, b] := by
                intro z hz hzw
                rcases swapRemove_mem_cases hsw hz with rfl | h2
                · exact absurd (List.mem_singleton.2 rfl) hzw
                · exact List.mem_append_left _ h2
              have hwfp : w ∈ footprint st :=
                mem_footprint_of_roster (findProg_mem hfp0) (swapRemove_mem_self hsw)
              have hwU : w ∈ U := mem_U_of_footprint hbA hwfp
              have hb1 : footprint (setRoster st pid0 (s1 ++ [a, b])) + {w} ≤
                  (U : Multiset Applicant) := by rw [hkey]; exact hb
              split at h
              case _ hcw =>
                -- w single: one retry
                have hinv1 : MatcherInv (setRoster st pid0 (s1 ++ [a, b])) := by
                  refine ⟨?_, unmatchedInv_keep rfl hinv.2⟩
                  refine placedInv_step hU [w] [a, b] hinv.1 rfl ?_ (heq_one2 hkey)
                      (hble_two hb) ?_ ?_ ?_
                  · intro p x hx hr
                    exact inroster_upgrade [w] hfp0 hsub1 hx hr
                  · intro z hz
                    have hzw : z = w := by simpa using hz
                    subst hzw; exact hwU
                  · intro z hz c2 hc2
                    have hzw : z = w := by simpa using hz
                    subst hzw
                    rw [hcw] at hc2; simp at hc2
                  · refine hNEW_pair hab hba hk0 hk1 (inroster_new hfp0 (by simp)) ?_
                    rw [← hpp]
                    exact inroster_new hfp0 (by simp)
                exact ihR _ _ _ hb1 hinv1 h
              case _ c hcw =>
                split at h
                case _ i hidx =>
                  split at h
                  · simp at h
                  rename_i wc s3 hswx
                  have hfpx : findProg (setRoster st pid0 (s1 ++ [a, b])).«matches» pid0 =
                      some (P0, s1 ++ [a, b]) :=
                    modifyFirstRoster_findProg_same _ hfp0
                  have hwcid : wc.id = c :=
                    findIdx?_id_pred hidx (swapRemove_getElem hswx)
                  have hwcfp1 : wc ∈ footprint (setRoster st pid0 (s1 ++ [a, b])) :=
                    mem_footprint_of_roster (findProg_mem hfpx) (swapRemove_mem_self hswx)
                  have hwcU : wc ∈ U := mem_U_of_footprint hb1 hwcfp1
                  have hpr := partner_resolve hU hwU hwcU hcw hwcid
                  have hnea := displaced_partner_ne hU hb hab hba hwfp hpr.1
                  have hpull := fp_pull hfpx hswx
                  have hsub2 : ∀ z ∈ s1 ++ [a, b], z ∉ [wc] → z ∈ s3 := by
                    intro z hz hzw
                    exact swapRemove_mem_of_ne hswx hz (by simpa using hzw)
                  have has3 : a ∈ s3 :=
                    swapRemove_mem_of_ne hswx (by simp) (Ne.symm hnea.1)
                  have hbs3 : b ∈ s3 :=
                    swapRemove_mem_of_ne hswx (by simp) (Ne.symm hnea.2)
                  have hinv4 : MatcherInv
                      (setRoster (setRoster st pid0 (s1 ++ [a, b])) pid0 s3) := by
                    refine ⟨?_, unmatchedInv_keep rfl hinv.2⟩
                    refine placedInv_step hU [w, wc] [a, b] hinv.1 rfl ?_
                        (heq_two_pull hpull hkey) (hble_two hb) ?_ ?_ ?_
                    · intro p x hx hr
                      have hx' : x ≠ w ∧ x ≠ wc := by simpa using hx
                      exact inroster_upgrade [wc] hfpx hsub2 (by simpa using hx'.2)
                        (inroster_upgrade [w] hfp0 hsub1 (by simpa using hx'.1) hr)
                    · intro z hz
                      rcases List.mem_cons.1 hz with rfl | hz2
                      · exact hwU
                      · have hzw : z = wc := by simpa using hz2
                        subst hzw; exact hwcU
                    · intro z hz c2 hc2
                      rcases List.mem_cons.1 hz with rfl | hz2
                      · rw [hcw] at hc2
                        exact ⟨wc, by simp, by
                          rw [hwcid]; exact Option.some_inj.1 hc2⟩
                      · have hzw : z = wc := by simpa using hz2
                        subst hzw
                        rw [hpr.1] at hc2
                        exact ⟨w, by simp, Option.some_inj.1 hc2⟩
                    · refine hNEW_pair hab hba hk0 hk1 (inroster_new hfpx has3) ?_
                      rw [← hpp]
                      exact inroster_new hfpx hbs3
                  have hbC : footprint (setRoster (setRoster st pid0 (s1 ++ [a, b]))
                      pid0 s3) + {w} + optMass (some wc) ≤ (U : Multiset Applicant) := by
                    simp only [optMass]
                    refine le_trans (le_of_eq ?_) hb
                    rw [← hkey, ← hpull]
                    abel
                  refine ihC _ _ _ _ hbC (by simp) ?_ hinv4 h
                  intro b2 hb2
                  obtain rfl : wc = b2 := by simpa using hb2
                  exact ⟨hpr.2, hpr.1⟩
                case _ hidx =>
                  exact absurd h (retryMatch_coupled_no_ok hU hcw hb1)
            case _ k2 havail =>
              -- available ≥ 2: both are pushed freely
              split at h
              case isFalse => simp at h
              case isTrue h2le =>
              split at h
              case isFalse => simp at h
              case isTrue hlen =>
              split at h
              case _ htc =>
                obtain rfl : _ = st2 := by injection h
                have hkey := fp_push2 a b hfp0
                refine ⟨?_, unmatchedInv_keep rfl hinv.2⟩
                refine placedInv_step hU [] [a, b] hinv.1 rfl ?_ (heq_zero2 hkey)
                    (hble_two hb) (by simp) (by simp) ?_
                · intro p x _ hr
                  exact inroster_upgrade [] hfp0
                    (fun z hz _ => List.mem_append_left _ hz) (by simp) hr
                · refine hNEW_pair hab hba hk0 hk1 (inroster_new hfp0 (by simp)) ?_
                  rw [← hpp]
                  exact inroster_new hfp0 (by simp)
              case _ htc => simp at h
          case isFalse hsame =>
            have hne01 : pid0 ≠ pid1 := by simpa using hsame
            split at h
            case isTrue => simp at h
            case isFalse hne =>
            split at h
            case isTrue hfree =>
              -- both programs have room: two pushes
              split at h
              case isFalse => simp at h
              case isTrue hlen0 =>
              split at h
              · simp at h
              rename_i P1b r1b hfp1b
              split at h
              case isFalse => simp at h
              case isTrue hlen1 =>
              split at h
              case _ htc =>
                obtain rfl : _ = st2 := by injection h
                have e0 := fp_push (P := P0) a hfp0
                have e1 := fp_push (P := P1b) b hfp1b
                have hkey : footprint (setRoster (setRoster st pid0 (ros0 ++ [a])) pid1
                    (r1b ++ [b])) = footprint st + {a} + {b} := by
                  rw [e1, e0]
                refine ⟨?_, unmatchedInv_keep rfl hinv.2⟩
                refine placedInv_step hU [] [a, b] hinv.1 rfl ?_ (heq_zero2 hkey)
                    (hble_two hb) (by simp) (by simp) ?_
                · intro p x _ hr
                  exact inroster_upgrade [] hfp1b
                    (fun z hz _ => List.mem_append_left _ hz) (by simp)
                    (inroster_upgrade [] hfp0
                      (fun z hz _ => List.mem_append_left _ hz) (by simp) hr)
                · exact hNEW_pair hab hba hk0 hk1
                    (inroster_upgrade [] hfp1b
                      (fun z hz _ => List.mem_append_left _ hz) (by simp)
                      (inroster_new hfp0 (by simp)))
                    (inroster_new hfp1b (by simp))
              case _ htc => simp at h
            case isFalse hfull =>
              -- one member displaced from each program
              split at h
              · simp at h
              rename_i r1m hr1m
              split at h
              · simp at h
              rename_i wi0 wr0 rt0 hs0
              split at h
              · simp at h
              rename_i wi1 wr1 rt1 hs1
              split at h
              case isFalse => exact ihCG _ _ _ _ _ hb hab hba hrest hinv h
              case isTrue hlt =>
              split at h
              · simp at h
              rename_i w0 t0 hsw0
              split at h
              case isFalse => simp at h
              case isTrue hlen0 =>
              split at h
              · simp at h
              rename_i P1b r1b hfp1b
              split at h
              · simp at h
              rename_i w1 t1 hsw1
              split at h
              case isFalse => simp at h
              case isTrue hlen1 =>
              split at h
              case _ htc =>
                rw [bind_eq_ok] at h
                obtain ⟨stm, h1, h2⟩ := h
                have e0 := fp_swap_push (P := P0) a hfp0 hsw0
                have e1 := fp_swap_push (P := P1b) b hfp1b hsw1
                have hkey := fp_chain2 e1 e0
                have hfp1st : findProg st.«matches» pid1 = some (P1b, r1b) := by
                  rw [← modifyFirstRoster_findProg_other (t0 ++ [a])
                    (by simpa using hne01)]
                  exact hfp1b
                have hw0fp : w0 ∈ footprint st :=
                  mem_footprint_of_roster (findProg_mem hfp0) (swapRemove_mem_self hsw0)
                have hw1fp : w1 ∈ footprint st :=
                  mem_footprint_of_roster (findProg_mem hfp1st) (swapRemove_mem_self hsw1)
                have hw0U : w0 ∈ U := mem_U_of_footprint hbA hw0fp
                have hw1U : w1 ∈ U := mem_U_of_footprint hbA hw1fp
                rcases hc1 : w1.couple with _ | c1
                · rcases hc0 : w0.couple with _ | c0
                  · -- both displaced members are single
                    have hsub0 : ∀ z ∈ ros0, z ∉ [w0] → z ∈ t0 ++ [a] := by
                      intro z hz hzw
                      rcases swapRemove_mem_cases hsw0 hz with rfl | h3
                      · exact absurd (List.mem_singleton.2 rfl) hzw
                      · exact List.mem_append_left _ h3
                    have hsub1 : ∀ z ∈ r1b, z ∉ [w1] → z ∈ t1 ++ [b] := by
                      intro z hz hzw
                      rcases swapRemove_mem_cases hsw1 hz with rfl | h3
                      · exact absurd (List.mem_singleton.2 rfl) hzw
                      · exact List.mem_append_left _ h3
                    have hanw1 : a ≠ w1 := by
                      intro heq
                      rw [heq] at hanotfp
                      exact hanotfp hw1fp
                    have hinv2 : MatcherInv (setRoster (setRoster st pid0 (t0 ++ [a]))
                        pid1 (t1 ++ [b])) := by
                      refine ⟨?_, unmatchedInv_keep rfl hinv.2⟩
                      refine placedInv_step hU [w0, w1] [a, b] hinv.1 rfl ?_
                          (heq_two hkey) (hble_two hb) ?_ ?_ ?_
                      · intro p x hx hr
                        have hx' : x ≠ w0 ∧ x ≠ w1 := by simpa using hx
                        exact inroster_upgrade [w1] hfp1b hsub1 (by simpa using hx'.2)
                          (inroster_upgrade [w0] hfp0 hsub0 (by simpa using hx'.1) hr)
                      · intro z hz
                        rcases List.mem_cons.1 hz with rfl | hz2
                        · exact hw0U
                        · have hzw1 : z = w1 := by simpa using hz2
                          subst hzw1; exact hw1U
                      · intro z hz c2 hc2
                        rcases List.mem_cons.1 hz with rfl | hz2
                        · rw [hc0] at hc2; simp at hc2
                        · have hzw1 : z = w1 := by simpa using hz2
                          subst hzw1
                          rw [hc1] at hc2; simp at hc2
                      · exact hNEW_pair hab hba hk0 hk1
                          (inroster_upgrade [w1] hfp1b hsub1 (by simpa using hanw1)
                            (inroster_new hfp0 (by simp)))
                          (inroster_new hfp1b (by simp))
                    have hinvm := ihR _ _ _ (le_U_of_chain2 hkey hb) hinv2 h1
                    have em := (footprint_adds n).2.2.2.2 _ _ _ h1
                    refine ihR _ _ _ ?_ hinvm h2
                    rw [em]
                    exact le_trans (le_of_eq hkey) hb
                  · -- w0 coupled: its retry can never succeed
                    exact absurd h1 (retryMatch_coupled_no_ok hU hc0
                      (le_U_of_chain2 hkey hb))
                · -- w1 coupled: its retry can never succeed
                  have em := (footprint_adds n).2.2.2.2 _ _ _ h1
                  refine absurd h2 (retryMatch_coupled_no_ok hU hc1 ?_)
                  rw [em]
                  exact le_trans (le_of_eq hkey) hb
              case _ htc => simp at h
        case _ hr0 hr1 =>
          exact ihCG _ _ _ _ _ hb hab hba hrest hinv h
    · -- retryMatch
      intro st w st2 hb hinv h
      rcases hcw : w.couple with _ | c
      · simp only [retryMatch, hcw] at h
        exact ihS _ _ _ hb hcw hinv h
      · exact absurd h (retryMatch_coupled_no_ok hU hcw hb)
theorem findProg_filter {ms : List (Program × List Applicant)} {pid : Nat}
    {e : Program × List Applicant}
    (h : findProg ms pid = some e) (he : 0 < e.2.length) :
    findProg (ms.filter (fun m => 0 < m.2.length)) pid = some e := by
  induction ms with
  | nil => simp [findProg] at h
  | cons m ms ih =>
    rw [findProg_cons] at h
    by_cases hm : (m.1.id == pid) = true
    · rw [hm, if_pos rfl, Option.some_inj] at h
      subst h
      rw [List.filter_cons_of_pos (by simpa using he), findProg_cons, hm, if_pos rfl]
    · rw [if_neg (by simp [hm])] at h
      by_cases hlen : 0 < m.2.length
      · rw [List.filter_cons_of_pos (by simpa using hlen), findProg_cons,
          if_neg (by simp [hm])]
        exact ih h
      · rw [List.filter_cons_of_neg (by simpa using hlen)]
        exact ih h

theorem inroster_finalize {st : MState} {p : Nat} {x : Applicant}
    (h : InRosterOf st p x) : InRosterOf (finalize st) p x := by
  obtain ⟨e, he, hx⟩ := h
  exact ⟨e, findProg_filter he (List.length_pos.2 (List.ne_nil_of_mem hx)), hx⟩

theorem matcherInv_finalize {st : MState} (h : MatcherInv st) :
    MatcherInv (finalize st) := by
  constructor
  · intro m hm x hx c hc
    have hm2 : m ∈ st.«matches».filter (fun m => 0 < m.2.length) := hm
    obtain ⟨y, hyid, hyc, k, p, q, h1, h2, h3, h4⟩ :=
      h.1 m (List.mem_of_mem_filter hm2) x hx c hc
    exact ⟨y, hyid, hyc, k, p, q, h1, h2, inroster_finalize h3, inroster_finalize h4⟩
  · exact unmatchedInv_keep rfl h.2

theorem matcherInv_init (programs : List Program) :
    MatcherInv { «matches» := programs.map (fun p => (p, [])),
                 unmatched_a := [], unmatched_p := [] } := by
  constructor
  · intro m hm x hx
    exfalso
    obtain ⟨p, hp, rfl⟩ := List.mem_map.1 hm
    simp at hx
  · intro x hx
    simp at hx

theorem mem_flattenUnits {units : List (Applicant × Option Applicant)} {x : Applicant}
    (hx : x ∈ flattenUnits units) :
    (∃ ob, (x, ob) ∈ units) ∨ (∃ a, (a, some x) ∈ units) := by
  induction units with
  | nil => simp [flattenUnits] at hx
  | cons u rest ih =>
    obtain ⟨a, ob⟩ := u
    cases ob with
    | none =>
      simp only [flattenUnits] at hx
      rcases List.mem_cons.1 hx with rfl | hx2
      · exact .inl ⟨none, List.mem_cons_self _ _⟩
      · rcases ih hx2 with ⟨ob2, h2⟩ | ⟨a2, h2⟩
        · exact .inl ⟨ob2, List.mem_cons_of_mem _ h2⟩
        · exact .inr ⟨a2, List.mem_cons_of_mem _ h2⟩
    | some b =>
      simp only [flattenUnits] at hx
      rcases List.mem_cons.1 hx with rfl | hx2
      · exact .inl ⟨some b, List.mem_cons_self _ _⟩
      · rcases List.mem_cons.1 hx2 with rfl | hx3
        · exact .inr ⟨a, List.mem_cons_self _ _⟩
        · rcases ih hx3 with ⟨ob2, h2⟩ | ⟨a2, h2⟩
          · exact .inl ⟨ob2, List.mem_cons_of_mem _ h2⟩
          · exact .inr ⟨a2, List.mem_cons_of_mem _ h2⟩

theorem flattenUnits_mem_left {units : List (Applicant × Option Applicant)}
    {a : Applicant} {ob : Option Applicant} (h : (a, ob) ∈ units) :
    a ∈ flattenUnits units := by
  induction units with
  | nil => simp at h
  | cons u rest ih =>
    rcases List.mem_cons.1 h with heq | h2
    · rw [← heq]
      cases ob with
      | none => simp [flattenUnits]
      | some b2 => simp [flattenUnits]
    · obtain ⟨a2, ob2⟩ := u
      cases ob2 with
      | none =>
        simp only [flattenUnits]
        exact List.mem_cons_of_mem _ (ih h2)
      | some b2 =>
        simp only [flattenUnits]
        exact List.mem_cons_of_mem _ (List.mem_cons_of_mem _ (ih h2))

theorem flattenUnits_mem_right {units : List (Applicant × Option Applicant)}
    {a b : Applicant} (h : (a, some b) ∈ units) : b ∈ flattenUnits units := by
  induction units with
  | nil => simp at h
  | cons u rest ih =>
    rcases List.mem_cons.1 h with heq | h2
    · rw [← heq]
      simp [flattenUnits]
    · obtain ⟨a2, ob2⟩ := u
      cases ob2 with
      | none =>
        simp only [flattenUnits]
        exact List.mem_cons_of_mem _ (ih h2)
      | some b2 =>
        simp only [flattenUnits]
        exact List.mem_cons_of_mem _ (List.mem_cons_of_mem _ (ih h2))

theorem goodU_of_units {units : List (Applicant × Option Applicant)}
    (hids : ((flattenUnits units).map (fun x => x.id)).Nodup)
    (hpairs : ∀ a b, (a, some b) ∈ units →
      a.couple = some b.id ∧ b.couple = some a.id)
    (hsingles : ∀ a, (a, (none : Option Applicant)) ∈ units → a.couple = none) :
    GoodU (flattenUnits units) := by
  refine ⟨hids, ?_⟩
  intro x hx c hc
  rcases mem_flattenUnits hx with ⟨ob, hob⟩ | ⟨a2, ha2⟩
  · cases ob with
    | none =>
      rw [hsingles x hob] at hc
      simp at hc
    | some b2 =>
      obtain ⟨h1, h2⟩ := hpairs x b2 hob
      refine ⟨b2, flattenUnits_mem_right hob, ?_, h2⟩
      rw [h1] at hc
      exact Option.some_inj.1 hc
  · obtain ⟨h1, h2⟩ := hpairs a2 x ha2
    refine ⟨a2, flattenUnits_mem_left ha2, ?_, h1⟩
    rw [h2] at hc
    exact Option.some_inj.1 hc

theorem runGo_matcherInv {U : List Applicant} (hU : GoodU U) (fuel : Nat) :
    ∀ units st st2,
      footprint st + unitsMass units ≤ (U : Multiset Applicant) →
      (∀ a b, (a, some b) ∈ units → a.couple = some b.id ∧ b.couple = some a.id) →
      (∀ a, (a, (none : Option Applicant)) ∈ units → a.couple = none) →
      MatcherInv st →
      runGo fuel st units none = .ok st2 → MatcherInv st2 := by
  intro units
  induction units with
  | nil =>
    intro st st2 hb hS hN hinv h
    simp only [runGo] at h
    obtain rfl : _ = st2 := by injection h
    exact matcherInv_finalize hinv
  | cons u rest ih =>
    intro st st2 hb hS hN hinv h
    obtain ⟨a, ob⟩ := u
    simp only [runGo] at h
    split at h
    case _ st1 hcall =>
      have hb1 : footprint st + {a} + optMass ob ≤ (U : Multiset Applicant) := by
        refine le_trans (Multiset.le_add_right _ (unitsMass rest))
          (le_trans (le_of_eq ?_) hb)
        simp only [unitsMass]; abel
      have hinv1 : MatcherInv st1 := by
        refine (matcherInv_all hU fuel).2.2.1 st a ob st1 hb1 ?_ ?_ hinv hcall
        · intro hno
          exact hN a (by rw [← hno]; exact List.mem_cons_self _ _)
        · intro b2 hb2
          exact hS a b2 (by rw [← hb2]; exact List.mem_cons_self _ _)
      have e1 := (footprint_adds fuel).2.2.1 _ _ _ _ hcall
      refine ih st1 st2 ?_ (fun x y hxy => hS x y (List.mem_cons_of_mem _ hxy))
        (fun x hx => hN x (List.mem_cons_of_mem _ hx)) hinv1 h
      rw [e1]
      refine le_trans (le_of_eq ?_) hb
      simp only [unitsMass]; abel
    case _ e st1 hcall =>
      exact absurd h (runGo_some_not_ok _ _ _ _ _)
    · rename_i r hne1 hne2
      exact absurd h (fun hh => hne1 _ hh)

/-- C1: couple atomicity.  For a well-formed input (pairwise distinct
applicant ids, couple units carrying mutual partner fields, single units
carrying none), every couple of a successful `run_match` ends with both
partners in the unmatched pool, or both placed in rosters at a common
position `k` of their joint rank lists. -/
theorem couple_atomicity {units : List (Applicant × Option Applicant)}
    {programs : List Program} {fuel : Nat} {stF : MState} {a b : Applicant}
    (hids : ((flattenUnits units).map (fun x => x.id)).Nodup)
    (hpairs : ∀ x y, (x, some y) ∈ units →
      x.couple = some y.id ∧ y.couple = some x.id)
    (hsingles : ∀ x, (x, (none : Option Applicant)) ∈ units → x.couple = none)
    (hok : runMatch fuel units programs = .ok stF)
    (hmem : (a, some b) ∈ units) :
    (a ∈ stF.unmatched_a ∧ b ∈ stF.unmatched_a) ∨ SameK stF a b := by
  have hU : GoodU (flattenUnits units) := goodU_of_units hids hpairs hsingles
  simp only [runMatch] at hok
  have hfp0 : footprint ⟨programs.map (fun p => (p, [])), [], []⟩ = 0 := by
    simp [footprint, rosterMems_empty]
  have hfpF : footprint stF = (flattenUnits units : Multiset Applicant) := by
    rw [runGo_fp fuel units _ _ hok, hfp0, zero_add, flattenUnits_mass]
  have hinvF : MatcherInv stF := by
    refine runGo_matcherInv hU fuel units _ _ ?_ hpairs hsingles
      (matcherInv_init programs) hok
    rw [hfp0, zero_add, ← flattenUnits_mass]
  have haU : a ∈ flattenUnits units := flattenUnits_mem_left hmem
  have hbU : b ∈ flattenUnits units := flattenUnits_mem_right hmem
  have hab : a.couple = some b.id := (hpairs a b hmem).1
  have hafp : a ∈ footprint stF := by
    rw [hfpF]
    exact Multiset.mem_coe.2 haU
  rcases footprint_cases hafp with hro | hun
  · obtain ⟨m, hm, hxm⟩ := hro
    obtain ⟨y, hyid, hyc, k, p, q, h1, h2, h3, h4⟩ := hinvF.1 m hm a hxm b.id hab
    have hyfp : y ∈ footprint stF :=
      rosterHas_mem_footprint (InRosterOf_rosterHas h4)
    have hyU : y ∈ flattenUnits units := by
      rw [hfpF] at hyfp
      exact Multiset.mem_coe.1 hyfp
    have hyb : y = b := goodU_idInj hU y hyU b hbU hyid
    subst hyb
    exact .inr ⟨k, p, q, h1, h2, h3, h4⟩
  · obtain ⟨y, hyun, hyid, hyc⟩ := hinvF.2 a hun b.id hab
    have hyfp : y ∈ footprint stF := mem_footprint_unmatched hyun
    have hyU : y ∈ flattenUnits units := by
      rw [hfpF] at hyfp
      exact Multiset.mem_coe.1 hyfp
    have hyb : y = b := goodU_idInj hU y hyU b hbU hyid
    subst hyb
    exact .inl ⟨hun, hyun⟩

/-- Witness for C1: a couple that both rank program 0 is placed together. -/
theorem couple_atomicity_witness :
    ((⟨1, some 2, [0]⟩ : Applicant) ∈
        (⟨[(⟨0, 2, [1, 2]⟩, [⟨1, some 2, [0]⟩, ⟨2, some 1, [0]⟩])], [], []⟩ :
          MState).unmatched_a ∧
      (⟨2, some 1, [0]⟩ : Applicant) ∈
        (⟨[(⟨0, 2, [1, 2]⟩, [⟨1, some 2, [0]⟩, ⟨2, some 1, [0]⟩])], [], []⟩ :
          MState).unmatched_a) ∨
    SameK ⟨[(⟨0, 2, [1, 2]⟩, [⟨1, some 2, [0]⟩, ⟨2, some 1, [0]⟩])], [], []⟩
      ⟨1, some 2, [0]⟩ ⟨2, some 1, [0]⟩ :=
  @couple_atomicity
    [((⟨1, some 2, [0]⟩ : Applicant), some (⟨2, some 1, [0]⟩ : Applicant))]
    [(⟨0, 2, [1, 2]⟩ : Program)] 10
    ⟨[(⟨0, 2, [1, 2]⟩, [⟨1, some 2, [0]⟩, ⟨2, some 1, [0]⟩])], [], []⟩
    ⟨1, some 2, [0]⟩ ⟨2, some 1, [0]⟩
    (by decide)
    (by
      intro x y hxy
      simp only [List.mem_singleton, Prod.mk.injEq, Option.some.injEq] at hxy
      obtain ⟨rfl, rfl⟩ := hxy
      exact ⟨rfl, rfl⟩)
    (by intro x hx; simp at hx)
    (by decide)
    (List.mem_singleton.2 rfl)
